import Mathlib

/-! # ZC222: table-driven lexers

A shallow embedding of the C sources `lexer_float.c`, `Tutorial3/lexer_tutorial_1.c` and
`Tutorial4/lexer_tutorial_2.c`, followed by theorems about the classification they compute, and
of the two small machines that decide whether a binary string ends with `1`: the `switch` of
`fsm.c` and the table-driven program at the end of `Tutorial4/lexer_tutorial_2.c`.

Conventions of the embedding:

* a `char` is a `Char`: the byte values 0..255 are the code points 0..255, so what holds for
  every `Char` holds for every byte;
* a C string is the list of its characters before the terminating NUL;
* `int` states and character classes are natural numbers, and the two-dimensional
  `int transitionTable[..][..]` is a list of rows, read with a bounds check: a read outside the
  array is undefined behaviour in C and is `none` here;
* the loop counter `i` and the lengths `before`/`after` stay far below `2^31` (every token is cut
  from a 100 byte buffer), so they are plain natural numbers;
* the loop of `lexer` takes a bound on the number of times its body may run, and the theorems
  show which bound is enough;
* to settle what `recogniseToken` writes, it is also run statement by statement on an explicit
  memory (`LexerFloat.Memory`), and that run is proved to agree with the functional form.
-/

namespace ZC222

/-! ## The C library functions the sources call -/

/-- `isalpha` of `<ctype.h>` in the "C" locale (the programs never call `setlocale`):
true exactly on `A`..`Z` and `a`..`z`, false on every other character. -/
def isalpha (c : Char) : Bool :=
  (65 ≤ c.toNat && c.toNat ≤ 90) || (97 ≤ c.toNat && c.toNat ≤ 122)

/-- `isdigit` of `<ctype.h>`: true exactly on `0`..`9`. -/
def isdigit (c : Char) : Bool :=
  48 ≤ c.toNat && c.toNat ≤ 57

/-- `strlen`: the number of characters before the terminator. -/
def strlen (s : List Char) : Nat :=
  s.length

/-- `strcmp`: zero when the two strings are equal, otherwise negative or positive according to
the lexicographic order of the first difference. -/
def strcmp (a b : List Char) : Int :=
  if a = b then 0 else if a < b then -1 else 1

/-- `strncmp`: `strcmp` restricted to the first `n` characters of both strings. -/
def strncmp (a b : List Char) (n : Nat) : Int :=
  strcmp (a.take n) (b.take n)

/-- `strchr`: the offset of the first occurrence of `c` in `s`; `none` is the NULL result. -/
def strchr : List Char → Char → Option Nat
  | [], _ => none
  | x :: rest, c =>
    if x = c then some 0
    else
      match strchr rest c with
      | none => none
      | some k => some (k + 1)

/-- `strtok` on the saved scan position `save`: skip leading delimiters (`strspn`); at the end of
the buffer the result is NULL (`none`); otherwise the token runs up to the next delimiter
(`strcspn`), which is overwritten by NUL, and the scan position moves just past it. The result
pairs the token with the new scan position. -/
def strtok (save delim : List Char) : Option (List Char × List Char) :=
  let s := save.dropWhile (fun c => decide (c ∈ delim))
  if s = [] then none
  else
    some (s.takeWhile (fun c => !decide (c ∈ delim)),
          (s.dropWhile (fun c => !decide (c ∈ delim))).drop 1)

/-! ## The scanning loop shared by the three lexers -/

/-- The array read `table[state][charClass]`. -/
def tableRead (table : List (List Nat)) (state charClass : Nat) : Option Nat :=
  match table[state]? with
  | none => none
  | some row => row[charClass]?

/-- The loop `while (input[i] != 0) { state = table[state][getCharClass(input[i])]; i++; }`,
which is textually the same in the three files. -/
def scanLoop (table : List (List Nat)) (getCharClass : Char → Nat) : Nat → List Char → Option Nat
  | state, [] => some state
  | state, c :: rest =>
    match tableRead table state (getCharClass c) with
    | none => none
    | some next => scanLoop table getCharClass next rest

/-! ## lexer_float.c -/

namespace LexerFloat

/-- The `TokenType` enumeration of `lexer_float.c`. -/
inductive TokenType
  | TOKEN_KEYWORD_IN
  | TOKEN_KEYWORD_OUT
  | TOKEN_UNSIGNED_INTEGER
  | TOKEN_FLOAT
  | TOKEN_OPERATOR
  | TOKEN_IDENTIFIER
  | TOKEN_UNKNOWN
  deriving DecidableEq

open TokenType

abbrev START : Nat := 0
abbrev IN_KEYWORD : Nat := 1
abbrev OUT_KEYWORD : Nat := 2
abbrev UNSIGNED_INTEGER : Nat := 3
abbrev DOT_SEEN : Nat := 4
abbrev FLOAT : Nat := 5
abbrev IDENTIFIER_PREFIX : Nat := 6
abbrev IDENTIFIER : Nat := 7
abbrev OPERATOR : Nat := 8
abbrev ERROR : Nat := 9

abbrev CHAR_LETTER : Nat := 0
abbrev CHAR_DIGIT : Nat := 1
abbrev CHAR_OPERATOR : Nat := 2
abbrev CHAR_DOT : Nat := 3
abbrev CHAR_UNKNOWN : Nat := 4

/-- The array `int transitionTable[10][5]`. -/
def transitionTable : List (List Nat) :=
  [ [IDENTIFIER_PREFIX, UNSIGNED_INTEGER, OPERATOR, ERROR, ERROR],
    [ERROR, ERROR, ERROR, ERROR, ERROR],
    [ERROR, ERROR, ERROR, ERROR, ERROR],
    [ERROR, UNSIGNED_INTEGER, ERROR, DOT_SEEN, ERROR],
    [ERROR, FLOAT, ERROR, ERROR, ERROR],
    [ERROR, FLOAT, ERROR, ERROR, ERROR],
    [IDENTIFIER, ERROR, ERROR, ERROR, ERROR],
    [IDENTIFIER, IDENTIFIER, ERROR, ERROR, ERROR],
    [ERROR, ERROR, ERROR, ERROR, ERROR],
    [ERROR, ERROR, ERROR, ERROR, ERROR] ]

/-- The function `getCharClass` of `lexer_float.c`. -/
def getCharClass (c : Char) : Nat :=
  if isalpha c then CHAR_LETTER
  else if isdigit c then CHAR_DIGIT
  else if c = '+' ∨ c = '-' ∨ c = '*' ∨ c = '/' then CHAR_OPERATOR
  else if c = '.' then CHAR_DOT
  else CHAR_UNKNOWN

/-- The value of `state` when the loop of `recogniseToken` exits. -/
def finalState (input : List Char) : Option Nat :=
  scanLoop transitionTable getCharClass START input

/-- The nested test under `if (state == FLOAT)`: `strchr` finds a dot, the dot is not the first
character, and `before > 0 && after > 0`. -/
def floatGuard (input : List Char) : Bool :=
  match strchr input '.' with
  | none => false
  | some dot =>
    if dot ≠ 0 then
      let before := dot
      let after := strlen (input.drop (dot + 1))
      decide (before > 0 ∧ after > 0)
    else false

/-- The function `recogniseToken` of `lexer_float.c`. -/
def recogniseToken (input : List Char) : Option TokenType :=
  match finalState input with
  | none => none
  | some state =>
    if state = IDENTIFIER ∧ strncmp input "id".toList 2 = 0 then some TOKEN_IDENTIFIER
    else if state = FLOAT ∧ floatGuard input = true then some TOKEN_FLOAT
    else if state = UNSIGNED_INTEGER then some TOKEN_UNSIGNED_INTEGER
    else if state = OPERATOR ∧ strlen input = 1 then some TOKEN_OPERATOR
    else if strcmp input "in".toList = 0 then some TOKEN_KEYWORD_IN
    else if strcmp input "out".toList = 0 then some TOKEN_KEYWORD_OUT
    else some TOKEN_UNKNOWN

/-- The `switch (type)` of `lexer` that picks the display name of a token type. -/
def tokenName : TokenType → String
  | TOKEN_KEYWORD_IN => "Keyword 'in'"
  | TOKEN_KEYWORD_OUT => "Keyword 'out'"
  | TOKEN_UNSIGNED_INTEGER => "Unsigned Integer"
  | TOKEN_FLOAT => "Floating Point"
  | TOKEN_OPERATOR => "Operator"
  | TOKEN_IDENTIFIER => "Identifier"
  | TOKEN_UNKNOWN => "Unknown"

/-- The text written by `printf("Token: %s; String: %s\n", tokenName, token)`. -/
def printf (name : String) (token : List Char) : List Char :=
  "Token: ".toList ++ name.toList ++ "; String: ".toList ++ token ++ ['\n']

/-- The string `delimiters` of `lexer`: space, tab, newline. -/
def delimiters : List Char :=
  [' ', '\t', '\n']

/-- The loop `while (token != NULL)` of `lexer`. The argument `token` is the result of the last
call of `strtok` (the token and the saved scan position); the result is the list of lines
printed. `fuel` bounds the number of times the loop body may run; `none` is returned when it runs
out, and when `recogniseToken` reads outside the table. -/
def lexerLoop : Nat → Option (List Char × List Char) → Option (List (List Char))
  | _, none => some []
  | 0, some _ => none
  | fuel + 1, some (token, save) =>
    match recogniseToken token with
    | none => none
    | some type =>
      match lexerLoop fuel (strtok save delimiters) with
      | none => none
      | some out => some (printf (tokenName type) token :: out)

/-- The function `lexer` of `lexer_float.c`. `strcpy(buffer, input)` into `char buffer[100]`
needs `strlen(input) < 100`; a longer input overruns the buffer (undefined behaviour, `none`). -/
def lexer (fuel : Nat) (input : List Char) : Option (List (List Char)) :=
  if strlen input < 100 then lexerLoop fuel (strtok input delimiters) else none

/-- The memory a call of `recogniseToken` works on: the global array `transitionTable`, which is
not declared `const`; the string behind the pointer `input`; and the locals `state` and `i`. -/
structure Memory where
  transitionTable : List (List Nat)
  input : List Char
  state : Nat
  i : Nat
  deriving DecidableEq

/-- The statement `state = transitionTable[state][charClass];` of the loop body, where
`charClass` was initialised to `getCharClass(c)`: it reads the array and assigns the local
`state`. -/
def assignState (m : Memory) (c : Char) : Option Memory :=
  match tableRead m.transitionTable m.state (getCharClass c) with
  | none => none
  | some next => some { m with state := next }

/-- The statement `i++;` of the loop body: it assigns the local `i`. -/
def incrementI (m : Memory) : Memory :=
  { m with i := m.i + 1 }

/-- The loop `while (input[i] != 0)` of `recogniseToken`, statement by statement, on the memory.
Reading `input[i]` at the end of the string gives the terminating NUL and the loop exits;
otherwise `c` is initialised to `input[i]` and the two assignments of the body run. `fuel` bounds
the number of times the body may run; `none` is returned when it runs out, and when a read of the
array is outside it. -/
def whileLoop : Nat → Memory → Option Memory
  | 0, m =>
    match m.input[m.i]? with
    | none => some m
    | some _ => none
  | fuel + 1, m =>
    match m.input[m.i]? with
    | none => some m
    | some c =>
      match assignState m c with
      | none => none
      | some m' => whileLoop fuel (incrementI m')

/-- The chain of `if ... return` that follows the loop, on the memory the loop leaves: it reads
`state` and the string behind `input`, and assigns nothing. -/
def returnedType (m : Memory) : TokenType :=
  if m.state = IDENTIFIER ∧ strncmp m.input "id".toList 2 = 0 then TOKEN_IDENTIFIER
  else if m.state = FLOAT ∧ floatGuard m.input = true then TOKEN_FLOAT
  else if m.state = UNSIGNED_INTEGER then TOKEN_UNSIGNED_INTEGER
  else if m.state = OPERATOR ∧ strlen m.input = 1 then TOKEN_OPERATOR
  else if strcmp m.input "in".toList = 0 then TOKEN_KEYWORD_IN
  else if strcmp m.input "out".toList = 0 then TOKEN_KEYWORD_OUT
  else TOKEN_UNKNOWN

/-- A call `recogniseToken(input)` made while the global array holds `table`: the locals are
initialised by `int state = START; int i = 0;`, the loop runs, and the call returns. The result is
the token type returned together with the memory at the return. -/
def recogniseTokenCall (fuel : Nat) (table : List (List Nat)) (input : List Char) :
    Option (TokenType × Memory) :=
  match whileLoop fuel { transitionTable := table, input := input, state := START, i := 0 } with
  | none => none
  | some m => some (returnedType m, m)

/-- The contents of the global array after a series of calls of `recogniseToken`, one per token of
`tokens`, made one after the other starting with the array holding `table`: each call runs on the
array the call before it left. -/
def tableAfterCalls (fuel : Nat) (table : List (List Nat)) :
    List (List Char) → Option (List (List Nat))
  | [] => some table
  | token :: tokens =>
    match recogniseTokenCall fuel table token with
    | none => none
    | some (_, m) => tableAfterCalls fuel m.transitionTable tokens

end LexerFloat

/-! ## Tutorial3/lexer_tutorial_1.c -/

namespace Tutorial3

/-- The `TokenType` enumeration of `lexer_tutorial_1.c`. -/
inductive TokenType
  | TOKEN_KEYWORD_IN
  | TOKEN_KEYWORD_OUT
  | TOKEN_OPERATOR
  | TOKEN_IDENTIFIER
  | TOKEN_UNKNOWN
  deriving DecidableEq

open TokenType

abbrev START : Nat := 0
abbrev IN_KEYWORD : Nat := 1
abbrev OUT_KEYWORD : Nat := 2
abbrev IDENTIFIER_PREFIX : Nat := 3
abbrev IDENTIFIER : Nat := 4
abbrev OPERATOR : Nat := 5
abbrev ERROR : Nat := 6

abbrev CHAR_LETTER : Nat := 0
abbrev CHAR_DIGIT : Nat := 1
abbrev CHAR_OPERATOR : Nat := 2
abbrev CHAR_UNKNOWN : Nat := 3

/-- The array `int transitionTable[7][4]`. -/
def transitionTable : List (List Nat) :=
  [ [IDENTIFIER_PREFIX, ERROR, OPERATOR, ERROR],
    [ERROR, ERROR, ERROR, ERROR],
    [ERROR, ERROR, ERROR, ERROR],
    [IDENTIFIER, ERROR, ERROR, ERROR],
    [IDENTIFIER, IDENTIFIER, ERROR, ERROR],
    [ERROR, ERROR, ERROR, ERROR],
    [ERROR, ERROR, ERROR, ERROR] ]

/-- The function `getCharClass` of `lexer_tutorial_1.c`. -/
def getCharClass (c : Char) : Nat :=
  if isalpha c then CHAR_LETTER
  else if isdigit c then CHAR_DIGIT
  else if c = '+' ∨ c = '-' ∨ c = '*' ∨ c = '/' then CHAR_OPERATOR
  else CHAR_UNKNOWN

/-- The value of `state` when the loop of `recogniseToken` exits. -/
def finalState (input : List Char) : Option Nat :=
  scanLoop transitionTable getCharClass START input

/-- The function `recogniseToken` of `lexer_tutorial_1.c`. -/
def recogniseToken (input : List Char) : Option TokenType :=
  match finalState input with
  | none => none
  | some state =>
    if state = IDENTIFIER ∧ strncmp input "id".toList 2 = 0 then some TOKEN_IDENTIFIER
    else if state = OPERATOR ∧ strlen input = 1 then some TOKEN_OPERATOR
    else if strcmp input "in".toList = 0 then some TOKEN_KEYWORD_IN
    else if strcmp input "out".toList = 0 then some TOKEN_KEYWORD_OUT
    else some TOKEN_UNKNOWN

end Tutorial3

/-! ## Tutorial4/lexer_tutorial_2.c -/

namespace Tutorial4

/-- The `TokenType` enumeration of `lexer_tutorial_2.c`. -/
inductive TokenType
  | TOKEN_KEYWORD_IN
  | TOKEN_KEYWORD_OUT
  | TOKEN_UNSIGNED_INTEGER
  | TOKEN_OPERATOR
  | TOKEN_IDENTIFIER
  | TOKEN_UNKNOWN
  deriving DecidableEq

open TokenType

abbrev START : Nat := 0
abbrev IN_KEYWORD : Nat := 1
abbrev OUT_KEYWORD : Nat := 2
abbrev UNSIGNED_INTEGER : Nat := 3
abbrev IDENTIFIER_PREFIX : Nat := 4
abbrev IDENTIFIER : Nat := 5
abbrev OPERATOR : Nat := 6
abbrev ERROR : Nat := 7

abbrev CHAR_LETTER : Nat := 0
abbrev CHAR_DIGIT : Nat := 1
abbrev CHAR_OPERATOR : Nat := 2
abbrev CHAR_UNKNOWN : Nat := 3

/-- The array `int transitionTable[8][4]`. -/
def transitionTable : List (List Nat) :=
  [ [IDENTIFIER_PREFIX, UNSIGNED_INTEGER, OPERATOR, ERROR],
    [ERROR, ERROR, ERROR, ERROR],
    [ERROR, ERROR, ERROR, ERROR],
    [ERROR, UNSIGNED_INTEGER, ERROR, ERROR],
    [IDENTIFIER, ERROR, ERROR, ERROR],
    [IDENTIFIER, IDENTIFIER, ERROR, ERROR],
    [ERROR, ERROR, ERROR, ERROR],
    [ERROR, ERROR, ERROR, ERROR] ]

/-- The function `getCharClass` of `lexer_tutorial_2.c`. -/
def getCharClass (c : Char) : Nat :=
  if isalpha c then CHAR_LETTER
  else if isdigit c then CHAR_DIGIT
  else if c = '+' ∨ c = '-' ∨ c = '*' ∨ c = '/' then CHAR_OPERATOR
  else CHAR_UNKNOWN

/-- The value of `state` when the loop of `recogniseToken` exits. -/
def finalState (input : List Char) : Option Nat :=
  scanLoop transitionTable getCharClass START input

/-- The function `recogniseToken` of `lexer_tutorial_2.c`. -/
def recogniseToken (input : List Char) : Option TokenType :=
  match finalState input with
  | none => none
  | some state =>
    if state = IDENTIFIER ∧ strncmp input "id".toList 2 = 0 then some TOKEN_IDENTIFIER
    else if state = UNSIGNED_INTEGER then some TOKEN_UNSIGNED_INTEGER
    else if state = OPERATOR ∧ strlen input = 1 then some TOKEN_OPERATOR
    else if strcmp input "in".toList = 0 then some TOKEN_KEYWORD_IN
    else if strcmp input "out".toList = 0 then some TOKEN_KEYWORD_OUT
    else some TOKEN_UNKNOWN

end Tutorial4

/-! ## fsm.c -/

namespace Fsm

/-- One pass through the body of the loop of `main`: the `switch (state)`. Both cases stay in or
move to state 0 on the character `0` and state 1 on anything else; a state other than 0 and 1
matches no case and is left as it is. -/
def step (state : Nat) (c : Char) : Nat :=
  match state with
  | 0 => if c = '0' then 0 else 1
  | 1 => if c = '0' then 0 else 1
  | _ => state

/-- The loop `while (index < n)` of `main`, run over the `n` characters `input[0..n-1]`. -/
def loop (state : Nat) : List Char → Nat
  | [] => state
  | c :: rest => loop (step state c) rest

/-- The function `main` of `fsm.c`, as a function of the `n` characters stored in `input`: the
line it prints. -/
def main (input : List Char) : String :=
  if loop 0 input = 1 then "The string is accepted (ends with 1).\n"
  else "The string is rejected (does not end with 1).\n"

end Fsm

/-! ## Tutorial4/lexer_tutorial_2.c, second program: Week 3 Practice 2 -/

/-- The array read `table[state][index]` with a signed column index: a negative index is outside
the array. -/
def tableReadSigned (table : List (List Nat)) (state : Nat) (index : Int) : Option Nat :=
  if index < 0 then none else tableRead table state index.toNat

namespace Week3Practice2

abbrev STATE_0 : Nat := 0
abbrev STATE_1 : Nat := 1

/-- The array `int transitionTable[2][2]`. -/
def transitionTable : List (List Nat) :=
  [ [STATE_0, STATE_1],
    [STATE_0, STATE_1] ]

/-- The function `getInputIndex`. -/
def getInputIndex (input : Char) : Int :=
  if input = '0' then 0
  else if input = '1' then 1
  else -1

/-- The ways the loop of `main` can end: by the `return 0` under `if (inputIndex == -1)`, taken
with `index` at the given position; by `index` reaching `n`, with the given `currentState`; or by
a read outside `transitionTable`. -/
inductive LoopExit
  | invalid (index : Nat)
  | finished (currentState : Nat)
  | outOfBounds
  deriving DecidableEq

/-- The loop `while (index < n)` of `main`, run over the characters `input[index..n-1]`. -/
def loop (currentState index : Nat) : List Char → LoopExit
  | [] => LoopExit.finished currentState
  | c :: rest =>
    if getInputIndex c = -1 then LoopExit.invalid index
    else
      match tableReadSigned transitionTable currentState (getInputIndex c) with
      | none => LoopExit.outOfBounds
      | some next => loop next (index + 1) rest

/-- The function `main` of the program, as a function of the `n` characters stored in `input`:
the line it prints, or `none` after a read outside the table. -/
def main (input : List Char) : Option String :=
  match loop STATE_0 0 input with
  | LoopExit.invalid _ => some "The string is rejected (contains invalid characters).\n"
  | LoopExit.finished currentState =>
    if currentState = STATE_1 then some "The string is accepted (ends with 1).\n"
    else some "The string is rejected (does not end with 1).\n"
  | LoopExit.outOfBounds => none

end Week3Practice2

/-! ## Vocabulary of the statements -/

/-- The variant of `LexerFloat.recogniseToken` in which the Float rule is `state == FLOAT` alone,
without the test on the string; the other rules and their order are unchanged. -/
def recogniseTokenWithoutFloatGuard (input : List Char) : Option LexerFloat.TokenType :=
  match LexerFloat.finalState input with
  | none => none
  | some state =>
    if state = LexerFloat.IDENTIFIER ∧ strncmp input "id".toList 2 = 0 then
      some LexerFloat.TokenType.TOKEN_IDENTIFIER
    else if state = LexerFloat.FLOAT then some LexerFloat.TokenType.TOKEN_FLOAT
    else if state = LexerFloat.UNSIGNED_INTEGER then
      some LexerFloat.TokenType.TOKEN_UNSIGNED_INTEGER
    else if state = LexerFloat.OPERATOR ∧ strlen input = 1 then
      some LexerFloat.TokenType.TOKEN_OPERATOR
    else if strcmp input "in".toList = 0 then some LexerFloat.TokenType.TOKEN_KEYWORD_IN
    else if strcmp input "out".toList = 0 then some LexerFloat.TokenType.TOKEN_KEYWORD_OUT
    else some LexerFloat.TokenType.TOKEN_UNKNOWN


/-- A float literal in the sense of the specification: one or more decimal digits, one dot, one or
more decimal digits. -/
def IsFloatLiteral (s : List Char) : Prop :=
  ∃ a b : List Char, s = a ++ '.' :: b ∧ a ≠ [] ∧ b ≠ [] ∧
    (∀ c ∈ a, isdigit c = true) ∧ (∀ c ∈ b, isdigit c = true)

/-- The tokens of a line in the sense of the specification: the line is cut at every space, tab
and newline, and the non-empty pieces are kept, in order. These are the maximal non-empty runs of
characters that are not space, tab or newline. -/
def maximalRuns (line : List Char) : List (List Char) :=
  (line.splitOnP (fun c => decide (c = ' ' ∨ c = '\t' ∨ c = '\n'))).filter (fun run => !run.isEmpty)

/-- The six acceptance rules of `LexerFloat.recogniseToken`, named so that they can be tried in
an order other than the one of the source. -/
inductive AcceptanceRule
  | identifier
  | float
  | unsignedInteger
  | operator
  | keywordIn
  | keywordOut
  deriving DecidableEq

/-- The condition of each rule, as it is written in the `if` of `LexerFloat.recogniseToken` that
carries the rule. -/
def AcceptanceRule.fires : AcceptanceRule → Nat → List Char → Bool
  | AcceptanceRule.identifier, state, input =>
    decide (state = LexerFloat.IDENTIFIER ∧ strncmp input "id".toList 2 = 0)
  | AcceptanceRule.float, state, input =>
    decide (state = LexerFloat.FLOAT ∧ LexerFloat.floatGuard input = true)
  | AcceptanceRule.unsignedInteger, state, _ => decide (state = LexerFloat.UNSIGNED_INTEGER)
  | AcceptanceRule.operator, state, input =>
    decide (state = LexerFloat.OPERATOR ∧ strlen input = 1)
  | AcceptanceRule.keywordIn, _, input => decide (strcmp input "in".toList = 0)
  | AcceptanceRule.keywordOut, _, input => decide (strcmp input "out".toList = 0)

/-- The token type each rule returns. -/
def AcceptanceRule.result : AcceptanceRule → LexerFloat.TokenType
  | AcceptanceRule.identifier => LexerFloat.TokenType.TOKEN_IDENTIFIER
  | AcceptanceRule.float => LexerFloat.TokenType.TOKEN_FLOAT
  | AcceptanceRule.unsignedInteger => LexerFloat.TokenType.TOKEN_UNSIGNED_INTEGER
  | AcceptanceRule.operator => LexerFloat.TokenType.TOKEN_OPERATOR
  | AcceptanceRule.keywordIn => LexerFloat.TokenType.TOKEN_KEYWORD_IN
  | AcceptanceRule.keywordOut => LexerFloat.TokenType.TOKEN_KEYWORD_OUT

/-- The rules tried one after the other in the given order: the result of the first rule whose
condition holds, and `TOKEN_UNKNOWN` when none does. -/
def firstMatch : List AcceptanceRule → Nat → List Char → LexerFloat.TokenType
  | [], _, _ => LexerFloat.TokenType.TOKEN_UNKNOWN
  | rule :: rest, state, input =>
    if rule.fires state input = true then rule.result else firstMatch rest state input

/-- The variant of `LexerFloat.recogniseToken` that runs the same loop and then tries the
acceptance rules in the given order. -/
def recogniseTokenInOrder (order : List AcceptanceRule) (input : List Char) :
    Option LexerFloat.TokenType :=
  match LexerFloat.finalState input with
  | none => none
  | some state => some (firstMatch order state input)

/-- The order in which `lexer_float.c` tries the rules. -/
def sourceOrder : List AcceptanceRule :=
  [AcceptanceRule.identifier, AcceptanceRule.float, AcceptanceRule.unsignedInteger,
    AcceptanceRule.operator, AcceptanceRule.keywordIn, AcceptanceRule.keywordOut]

/-- The order with the two keyword checks first. -/
def keywordsFirstOrder : List AcceptanceRule :=
  [AcceptanceRule.keywordIn, AcceptanceRule.keywordOut, AcceptanceRule.identifier,
    AcceptanceRule.float, AcceptanceRule.unsignedInteger, AcceptanceRule.operator]

/-- The token type of `lexer_float.c` that bears the name of a token type of
`Tutorial4/lexer_tutorial_2.c`. -/
def sameNameInFloat : Tutorial4.TokenType → LexerFloat.TokenType
  | Tutorial4.TokenType.TOKEN_KEYWORD_IN => LexerFloat.TokenType.TOKEN_KEYWORD_IN
  | Tutorial4.TokenType.TOKEN_KEYWORD_OUT => LexerFloat.TokenType.TOKEN_KEYWORD_OUT
  | Tutorial4.TokenType.TOKEN_UNSIGNED_INTEGER => LexerFloat.TokenType.TOKEN_UNSIGNED_INTEGER
  | Tutorial4.TokenType.TOKEN_OPERATOR => LexerFloat.TokenType.TOKEN_OPERATOR
  | Tutorial4.TokenType.TOKEN_IDENTIFIER => LexerFloat.TokenType.TOKEN_IDENTIFIER
  | Tutorial4.TokenType.TOKEN_UNKNOWN => LexerFloat.TokenType.TOKEN_UNKNOWN

/-- The token type of `Tutorial4/lexer_tutorial_2.c` that bears the name of a token type of
`Tutorial3/lexer_tutorial_1.c`. -/
def sameNameInTutorial4 : Tutorial3.TokenType → Tutorial4.TokenType
  | Tutorial3.TokenType.TOKEN_KEYWORD_IN => Tutorial4.TokenType.TOKEN_KEYWORD_IN
  | Tutorial3.TokenType.TOKEN_KEYWORD_OUT => Tutorial4.TokenType.TOKEN_KEYWORD_OUT
  | Tutorial3.TokenType.TOKEN_OPERATOR => Tutorial4.TokenType.TOKEN_OPERATOR
  | Tutorial3.TokenType.TOKEN_IDENTIFIER => Tutorial4.TokenType.TOKEN_IDENTIFIER
  | Tutorial3.TokenType.TOKEN_UNKNOWN => Tutorial4.TokenType.TOKEN_UNKNOWN

/-! ## Facts about the library functions -/

theorem strcmp_eq_zero_iff (a b : List Char) : strcmp a b = 0 ↔ a = b := by
  unfold strcmp
  by_cases h : a = b
  · simp [h]
  · simp only [h, if_false, iff_false]
    split <;> decide

theorem strncmp_eq_zero_iff (a b : List Char) (n : Nat) :
    strncmp a b n = 0 ↔ a.take n = b.take n := by
  unfold strncmp
  exact strcmp_eq_zero_iff _ _

theorem strchr_append_of_not_mem (a b : List Char) (c : Char) (h : ∀ x ∈ a, x ≠ c) :
    strchr (a ++ c :: b) c = some a.length := by
  induction a with
  | nil => simp [strchr]
  | cons x a ih =>
    have hx : x ≠ c := h x (List.mem_cons_self x a)
    have ih2 := ih (fun y hy => h y (List.mem_cons_of_mem x hy))
    simp [strchr, hx, ih2]

theorem isdigit_not_isalpha (c : Char) (h : isdigit c = true) : isalpha c = false := by
  simp only [isdigit, isalpha, Bool.and_eq_true, Bool.or_eq_true, decide_eq_true_eq,
    Bool.or_eq_false_iff, Bool.and_eq_false_iff, decide_eq_false_iff_not] at *
  omega

theorem scanLoop_nil (table : List (List Nat)) (g : Char → Nat) (q : Nat) :
    scanLoop table g q [] = some q := rfl

theorem scanLoop_cons (table : List (List Nat)) (g : Char → Nat) (q : Nat) (c : Char)
    (s : List Char) :
    scanLoop table g q (c :: s) = (tableRead table q (g c)).bind (fun n => scanLoop table g n s) := by
  simp only [scanLoop]
  cases tableRead table q (g c) <;> rfl

theorem scanLoop_append (table : List (List Nat)) (g : Char → Nat) (q : Nat) (p s : List Char) :
    scanLoop table g q (p ++ s) = (scanLoop table g q p).bind (fun n => scanLoop table g n s) := by
  induction p generalizing q with
  | nil => simp [scanLoop_nil]
  | cons c p ih =>
    simp only [List.cons_append, scanLoop_cons]
    cases tableRead table q (g c) with
    | none => rfl
    | some n => simpa using ih n

/-- A table is closed for `nS` states and `nC` classes when every read with indices below these
bounds succeeds and yields a state below `nS`. -/
theorem scanLoop_total (table : List (List Nat)) (g : Char → Nat) (nS nC : Nat)
    (hT : ∀ q < nS, ∀ k < nC, ∃ n < nS, tableRead table q k = some n)
    (hg : ∀ c, g c < nC) (q : Nat) (hq : q < nS) (s : List Char) :
    ∃ n < nS, scanLoop table g q s = some n := by
  induction s generalizing q with
  | nil => exact ⟨q, hq, rfl⟩
  | cons c s ih =>
    obtain ⟨n, hn, hread⟩ := hT q hq (g c) (hg c)
    obtain ⟨m, hm, hrun⟩ := ih n hn
    exact ⟨m, hm, by simp [scanLoop_cons, hread, hrun]⟩

/-- A state whose row maps every class to itself is never left. -/
theorem scanLoop_absorbing (table : List (List Nat)) (g : Char → Nat) (e nC : Nat)
    (hrow : ∀ k < nC, tableRead table e k = some e) (hg : ∀ c, g c < nC) (s : List Char) :
    scanLoop table g e s = some e := by
  induction s with
  | nil => rfl
  | cons c s ih => simp only [scanLoop_cons, hrow (g c) (hg c), Option.some_bind, ih]

/-! ## lexer_float.c: the automaton -/

namespace LexerFloat

theorem getCharClass_cases (c : Char) :
    (isalpha c = true ∧ isdigit c = false ∧ getCharClass c = 0) ∨
    (isalpha c = false ∧ isdigit c = true ∧ getCharClass c = 1) ∨
    (isalpha c = false ∧ isdigit c = false ∧ (c = '+' ∨ c = '-' ∨ c = '*' ∨ c = '/') ∧
      getCharClass c = 2) ∨
    (isalpha c = false ∧ isdigit c = false ∧ c = '.' ∧ getCharClass c = 3) ∨
    (isalpha c = false ∧ isdigit c = false ∧ ¬(c = '+' ∨ c = '-' ∨ c = '*' ∨ c = '/') ∧ c ≠ '.' ∧
      getCharClass c = 4) := by
  unfold getCharClass
  by_cases h1 : isalpha c = true
  · have h2 : isdigit c = false := by
      cases h : isdigit c
      · rfl
      · rw [isdigit_not_isalpha c h] at h1; exact absurd h1 (by decide)
    simp [h1, h2]
  · by_cases h2 : isdigit c = true
    · simp [h1, h2]
    · by_cases h3 : (c = '+' ∨ c = '-' ∨ c = '*' ∨ c = '/')
      · have h4 : c ≠ '.' := by rcases h3 with h | h | h | h <;> subst h <;> decide
        simp [h1, h2, h3]
      · by_cases h4 : c = '.'
        · subst h4; decide
        · simp [h1, h2, h3, h4]

theorem read_ERROR (c : Char) :
    tableRead transitionTable ERROR (getCharClass c) = some ERROR := by
  rcases getCharClass_cases c with ⟨_, _, h⟩ | ⟨_, _, h⟩ | ⟨_, _, _, h⟩ | ⟨_, _, _, h⟩ |
    ⟨_, _, _, _, h⟩ <;> rw [h] <;> rfl

theorem read_OPERATOR (c : Char) :
    tableRead transitionTable OPERATOR (getCharClass c) = some ERROR := by
  rcases getCharClass_cases c with ⟨_, _, h⟩ | ⟨_, _, h⟩ | ⟨_, _, _, h⟩ | ⟨_, _, _, h⟩ |
    ⟨_, _, _, _, h⟩ <;> rw [h] <;> rfl

theorem read_FLOAT (c : Char) :
    tableRead transitionTable FLOAT (getCharClass c) =
      some (if isdigit c = true then FLOAT else ERROR) := by
  rcases getCharClass_cases c with ⟨_, hd, h⟩ | ⟨_, hd, h⟩ | ⟨_, hd, _, h⟩ | ⟨_, hd, _, h⟩ |
    ⟨_, hd, _, _, h⟩ <;> rw [h, hd] <;> rfl

theorem read_DOT_SEEN (c : Char) :
    tableRead transitionTable DOT_SEEN (getCharClass c) =
      some (if isdigit c = true then FLOAT else ERROR) := by
  rcases getCharClass_cases c with ⟨_, hd, h⟩ | ⟨_, hd, h⟩ | ⟨_, hd, _, h⟩ | ⟨_, hd, _, h⟩ |
    ⟨_, hd, _, _, h⟩ <;> rw [h, hd] <;> rfl

theorem read_UNSIGNED_INTEGER (c : Char) :
    tableRead transitionTable UNSIGNED_INTEGER (getCharClass c) =
      some (if isdigit c = true then UNSIGNED_INTEGER else if c = '.' then DOT_SEEN else ERROR) := by
  rcases getCharClass_cases c with ⟨ha, hd, h⟩ | ⟨_, hd, h⟩ | ⟨_, hd, hop, h⟩ | ⟨_, hd, hdot, h⟩ |
    ⟨_, hd, _, hdot, h⟩
  · rw [h, hd]
    have : c ≠ '.' := by rintro rfl; exact absurd ha (by decide)
    simp [this, tableRead, transitionTable]
  · rw [h, hd]; rfl
  · rw [h, hd]
    have : c ≠ '.' := by rcases hop with e | e | e | e <;> subst e <;> decide
    simp [this, tableRead, transitionTable]
  · rw [h, hd, hdot]; rfl
  · rw [h, hd]; simp [hdot, tableRead, transitionTable]

theorem read_IDENTIFIER (c : Char) :
    tableRead transitionTable IDENTIFIER (getCharClass c) =
      some (if (isalpha c || isdigit c) = true then IDENTIFIER else ERROR) := by
  rcases getCharClass_cases c with ⟨ha, hd, h⟩ | ⟨ha, hd, h⟩ | ⟨ha, hd, _, h⟩ | ⟨ha, hd, _, h⟩ |
    ⟨ha, hd, _, _, h⟩ <;> rw [h, ha, hd] <;> rfl

theorem read_IDENTIFIER_PREFIX (c : Char) :
    tableRead transitionTable IDENTIFIER_PREFIX (getCharClass c) =
      some (if isalpha c = true then IDENTIFIER else ERROR) := by
  rcases getCharClass_cases c with ⟨ha, hd, h⟩ | ⟨ha, hd, h⟩ | ⟨ha, hd, _, h⟩ | ⟨ha, hd, _, h⟩ |
    ⟨ha, hd, _, _, h⟩ <;> rw [h, ha] <;> rfl

theorem read_START (c : Char) :
    tableRead transitionTable START (getCharClass c) =
      some (if isalpha c = true then IDENTIFIER_PREFIX
        else if isdigit c = true then UNSIGNED_INTEGER
        else if c = '+' ∨ c = '-' ∨ c = '*' ∨ c = '/' then OPERATOR else ERROR) := by
  rcases getCharClass_cases c with ⟨ha, hd, h⟩ | ⟨ha, hd, h⟩ | ⟨ha, hd, hop, h⟩ |
    ⟨ha, hd, hdot, h⟩ | ⟨ha, hd, hop, _, h⟩
  · rw [h, ha]; rfl
  · rw [h, ha, hd]; rfl
  · rw [h, ha, hd]; simp [hop, tableRead, transitionTable]
  · rw [h, ha, hd, hdot]; rfl
  · rw [h, ha, hd]; simp [hop, tableRead, transitionTable]

theorem run_ERROR (s : List Char) :
    scanLoop transitionTable getCharClass ERROR s = some ERROR := by
  induction s with
  | nil => rfl
  | cons c s ih => simp only [scanLoop_cons, read_ERROR, Option.some_bind, ih]

theorem run_OPERATOR (c : Char) (s : List Char) :
    scanLoop transitionTable getCharClass OPERATOR (c :: s) = some ERROR := by
  simp only [scanLoop_cons, read_OPERATOR, Option.some_bind, run_ERROR]

theorem run_FLOAT (s : List Char) :
    scanLoop transitionTable getCharClass FLOAT s =
      some (if s.all isdigit = true then FLOAT else ERROR) := by
  induction s with
  | nil => rfl
  | cons c s ih =>
    simp only [scanLoop_cons, read_FLOAT, Option.some_bind, List.all_cons]
    by_cases hd : isdigit c = true <;> simp [hd, ih, run_ERROR]

theorem run_DOT_SEEN (c : Char) (s : List Char) :
    scanLoop transitionTable getCharClass DOT_SEEN (c :: s) =
      some (if (c :: s).all isdigit = true then FLOAT else ERROR) := by
  simp only [scanLoop_cons, read_DOT_SEEN, Option.some_bind, List.all_cons]
  by_cases hd : isdigit c = true <;> simp [hd, run_FLOAT, run_ERROR]

theorem run_IDENTIFIER (s : List Char) :
    scanLoop transitionTable getCharClass IDENTIFIER s =
      some (if s.all (fun c => isalpha c || isdigit c) = true then IDENTIFIER else ERROR) := by
  induction s with
  | nil => rfl
  | cons c s ih =>
    simp only [scanLoop_cons, read_IDENTIFIER, Option.some_bind, List.all_cons]
    by_cases hd : (isalpha c || isdigit c) = true <;> simp [hd, ih, run_ERROR]

theorem run_IDENTIFIER_PREFIX (c : Char) (s : List Char) :
    scanLoop transitionTable getCharClass IDENTIFIER_PREFIX (c :: s) =
      some (if (isalpha c && s.all (fun c => isalpha c || isdigit c)) = true
        then IDENTIFIER else ERROR) := by
  simp only [scanLoop_cons, read_IDENTIFIER_PREFIX, Option.some_bind]
  by_cases ha : isalpha c = true <;> simp [ha, run_IDENTIFIER, run_ERROR]

theorem run_UNSIGNED_INTEGER_digits (s : List Char) (h : s.all isdigit = true) :
    scanLoop transitionTable getCharClass UNSIGNED_INTEGER s = some UNSIGNED_INTEGER := by
  induction s with
  | nil => rfl
  | cons c s ih =>
    simp only [List.all_cons, Bool.and_eq_true] at h
    simp only [scanLoop_cons, read_UNSIGNED_INTEGER, Option.some_bind, h.1, if_true]
    exact ih h.2

theorem run_UNSIGNED_INTEGER_split (a b : List Char) (x : Char) (ha : a.all isdigit = true)
    (hx : isdigit x = false) :
    scanLoop transitionTable getCharClass UNSIGNED_INTEGER (a ++ x :: b) =
      if x = '.' then scanLoop transitionTable getCharClass DOT_SEEN b else some ERROR := by
  rw [scanLoop_append, run_UNSIGNED_INTEGER_digits a ha]
  simp only [Option.some_bind, scanLoop_cons, read_UNSIGNED_INTEGER, hx]
  by_cases hdot : x = '.'
  · simp [hdot]
  · simp [hdot, run_ERROR]

/-- Every string is all digits, or splits at its first character that is not a digit. -/
theorem digits_or_split (s : List Char) :
    s.all isdigit = true ∨
      ∃ (a : List Char) (x : Char) (b : List Char),
        s = a ++ x :: b ∧ a.all isdigit = true ∧ isdigit x = false := by
  induction s with
  | nil => exact Or.inl rfl
  | cons c s ih =>
    by_cases hc : isdigit c = true
    · rcases ih with h | ⟨a, x, b, hs, ha, hx⟩
      · exact Or.inl (by simp [hc, h])
      · exact Or.inr ⟨c :: a, x, b, by simp [hs], by simp [hc, ha], hx⟩
    · exact Or.inr ⟨[], c, s, rfl, rfl, by simpa using hc⟩

theorem finalState_nil : finalState [] = some START := rfl

theorem finalState_cons (c : Char) (r : List Char) :
    finalState (c :: r) =
      if isalpha c = true then scanLoop transitionTable getCharClass IDENTIFIER_PREFIX r
      else if isdigit c = true then scanLoop transitionTable getCharClass UNSIGNED_INTEGER r
      else if c = '+' ∨ c = '-' ∨ c = '*' ∨ c = '/' then
        scanLoop transitionTable getCharClass OPERATOR r
      else some ERROR := by
  unfold finalState
  simp only [scanLoop_cons, read_START, Option.some_bind]
  split_ifs <;> first | rfl | exact run_ERROR r

/-- The shapes of strings on which the automaton ends in each state other than ERROR. -/
theorem finalState_cases (s : List Char) :
    (s = [] ∧ finalState s = some START) ∨
    (∃ c, s = [c] ∧ isalpha c = true ∧ finalState s = some IDENTIFIER_PREFIX) ∨
    (∃ c d r, s = c :: d :: r ∧ isalpha c = true ∧ isalpha d = true ∧
      r.all (fun x => isalpha x || isdigit x) = true ∧ finalState s = some IDENTIFIER) ∨
    (s ≠ [] ∧ s.all isdigit = true ∧ finalState s = some UNSIGNED_INTEGER) ∨
    (∃ a, s = a ++ ['.'] ∧ a ≠ [] ∧ a.all isdigit = true ∧ finalState s = some DOT_SEEN) ∨
    (∃ a b, s = a ++ '.' :: b ∧ a ≠ [] ∧ b ≠ [] ∧ a.all isdigit = true ∧ b.all isdigit = true ∧
      finalState s = some FLOAT) ∨
    (∃ c, s = [c] ∧ (c = '+' ∨ c = '-' ∨ c = '*' ∨ c = '/') ∧ finalState s = some OPERATOR) ∨
    (s ≠ [] ∧ finalState s = some ERROR) := by
  cases s with
  | nil => exact Or.inl ⟨rfl, rfl⟩
  | cons c r =>
    rw [finalState_cons]
    by_cases ha : isalpha c = true
    · simp only [ha, if_true]
      cases r with
      | nil => exact Or.inr (Or.inl ⟨c, rfl, ha, rfl⟩)
      | cons d r =>
        rw [run_IDENTIFIER_PREFIX]
        by_cases hd : (isalpha d && r.all (fun x => isalpha x || isdigit x)) = true
        · rw [if_pos hd]
          simp only [Bool.and_eq_true] at hd
          exact Or.inr (Or.inr (Or.inl ⟨c, d, r, rfl, ha, hd.1, hd.2, rfl⟩))
        · rw [if_neg hd]
          simp
    · simp only [ha, if_false]
      by_cases hd : isdigit c = true
      · simp only [hd, if_true]
        rcases digits_or_split r with h | ⟨a, x, b, hs, hda, hx⟩
        · rw [run_UNSIGNED_INTEGER_digits r h]
          refine Or.inr (Or.inr (Or.inr (Or.inl ⟨by simp, by simp [hd, h], rfl⟩)))
        · subst hs
          rw [run_UNSIGNED_INTEGER_split a b x hda hx]
          by_cases hdot : x = '.'
          · subst hdot
            simp only [if_true]
            cases b with
            | nil =>
              exact Or.inr (Or.inr (Or.inr (Or.inr (Or.inl
                ⟨c :: a, by simp, by simp, by simp [hd, hda], rfl⟩))))
            | cons y b =>
              rw [run_DOT_SEEN]
              by_cases hb : (y :: b).all isdigit = true
              · rw [if_pos hb]
                exact Or.inr (Or.inr (Or.inr (Or.inr (Or.inr (Or.inl
                  ⟨c :: a, y :: b, by simp, by simp, by simp, by simp [hd, hda], hb, rfl⟩)))))
              · rw [if_neg hb]; simp
          · simp [hdot]
      · simp only [hd, if_false]
        by_cases hop : (c = '+' ∨ c = '-' ∨ c = '*' ∨ c = '/')
        · simp only [hop, if_true]
          cases r with
          | nil => exact Or.inr (Or.inr (Or.inr (Or.inr (Or.inr (Or.inr (Or.inl
              ⟨c, rfl, hop, rfl⟩))))))
          | cons y r => rw [run_OPERATOR]; simp
        · simp [hop]

theorem recogniseToken_of_finalState (s : List Char) (q : Nat) (h : finalState s = some q) :
    recogniseToken s =
      if q = IDENTIFIER ∧ strncmp s "id".toList 2 = 0 then some TokenType.TOKEN_IDENTIFIER
      else if q = FLOAT ∧ floatGuard s = true then some TokenType.TOKEN_FLOAT
      else if q = UNSIGNED_INTEGER then some TokenType.TOKEN_UNSIGNED_INTEGER
      else if q = OPERATOR ∧ strlen s = 1 then some TokenType.TOKEN_OPERATOR
      else if strcmp s "in".toList = 0 then some TokenType.TOKEN_KEYWORD_IN
      else if strcmp s "out".toList = 0 then some TokenType.TOKEN_KEYWORD_OUT
      else some TokenType.TOKEN_UNKNOWN := by
  simp only [recogniseToken, h]

theorem getCharClass_lt (c : Char) : getCharClass c < 5 := by
  unfold getCharClass
  split_ifs <;> decide

theorem transitionTable_closed :
    ∀ q < 10, ∀ k < 5, ∃ n < 10, tableRead transitionTable q k = some n := by
  decide

theorem finalState_total (s : List Char) : ∃ q, q < 10 ∧ finalState s = some q :=
  scanLoop_total transitionTable getCharClass 10 5 transitionTable_closed getCharClass_lt
    START (by decide) s

theorem floatGuard_of_shape (a b : List Char) (ha : a ≠ []) (hb : b ≠ [])
    (hda : a.all isdigit = true) : floatGuard (a ++ '.' :: b) = true := by
  have hnot : ∀ x ∈ a, x ≠ '.' := by
    intro x hx hdot
    have := List.all_eq_true.mp hda x hx
    rw [hdot] at this
    exact absurd this (by decide)
  have hlen : a.length ≠ 0 := by simpa using ha
  have hpos : 0 < a.length := Nat.pos_of_ne_zero hlen
  have hblen : 0 < b.length := List.length_pos.mpr hb
  have hdrop : List.drop (a.length + 1) (a ++ '.' :: b) = b := by
    rw [List.drop_append_eq_append_drop]
    simp
  simp [floatGuard, strchr_append_of_not_mem a b '.' hnot, hlen, hdrop, strlen, hpos, hblen]

theorem finalState_of_float_shape (a b : List Char) (ha : a ≠ []) (hb : b ≠ [])
    (hda : a.all isdigit = true) (hdb : b.all isdigit = true) :
    finalState (a ++ '.' :: b) = some FLOAT := by
  cases a with
  | nil => exact absurd rfl ha
  | cons c a =>
    simp only [List.all_cons, Bool.and_eq_true] at hda
    rw [List.cons_append, finalState_cons, isdigit_not_isalpha c hda.1]
    simp only [hda.1, if_true, Bool.false_eq_true, if_false]
    rw [run_UNSIGNED_INTEGER_split a b '.' hda.2 (by decide), if_pos rfl]
    cases b with
    | nil => exact absurd rfl hb
    | cons y b => rw [run_DOT_SEEN, if_pos hdb]

theorem float_unsigned_integer_iff (s : List Char) :
    recogniseToken s = some TokenType.TOKEN_UNSIGNED_INTEGER ↔
      s ≠ [] ∧ s.all isdigit = true := by
  constructor
  · intro h
    obtain ⟨q, _, hq⟩ := finalState_total s
    rw [recogniseToken_of_finalState s q hq] at h
    have hq3 : q = UNSIGNED_INTEGER := by
      split_ifs at h with h1 h2 h3 <;> first | exact h3 | cases h
    rw [hq3] at hq
    rcases finalState_cases s with ⟨_, hq'⟩ | ⟨c, _, _, hq'⟩ | ⟨c, d, r, _, _, _, _, hq'⟩ |
      ⟨hne, hall, _⟩ | ⟨a, _, _, _, hq'⟩ | ⟨a, b, _, _, _, _, _, hq'⟩ | ⟨c, _, _, hq'⟩ | ⟨_, hq'⟩
    all_goals first
      | exact ⟨hne, hall⟩
      | (rw [hq] at hq'; exact absurd hq' (by decide))
  · rintro ⟨hne, hall⟩
    cases s with
    | nil => exact absurd rfl hne
    | cons c r =>
      simp only [List.all_cons, Bool.and_eq_true] at hall
      have hq : finalState (c :: r) = some UNSIGNED_INTEGER := by
        rw [finalState_cons, isdigit_not_isalpha c hall.1]
        simp only [hall.1, if_true, Bool.false_eq_true, if_false]
        exact run_UNSIGNED_INTEGER_digits r hall.2
      rw [recogniseToken_of_finalState _ _ hq]
      simp

end LexerFloat

/-! ## Tutorial4/lexer_tutorial_2.c: the automaton -/

namespace Tutorial4

theorem t4_getCharClass_cases (c : Char) :
    (isalpha c = true ∧ isdigit c = false ∧ getCharClass c = 0) ∨
    (isalpha c = false ∧ isdigit c = true ∧ getCharClass c = 1) ∨
    (isalpha c = false ∧ isdigit c = false ∧ (c = '+' ∨ c = '-' ∨ c = '*' ∨ c = '/') ∧
      getCharClass c = 2) ∨
    (isalpha c = false ∧ isdigit c = false ∧ ¬(c = '+' ∨ c = '-' ∨ c = '*' ∨ c = '/') ∧
      getCharClass c = 3) := by
  unfold getCharClass
  by_cases h1 : isalpha c = true
  · have h2 : isdigit c = false := by
      cases h : isdigit c
      · rfl
      · rw [isdigit_not_isalpha c h] at h1; exact absurd h1 (by decide)
    simp [h1, h2]
  · by_cases h2 : isdigit c = true
    · simp [h1, h2]
    · by_cases h3 : (c = '+' ∨ c = '-' ∨ c = '*' ∨ c = '/')
      · simp [h1, h2, h3]
      · simp [h1, h2, h3]

theorem t4_read_ERROR (c : Char) :
    tableRead transitionTable ERROR (getCharClass c) = some ERROR := by
  rcases t4_getCharClass_cases c with ⟨_, _, h⟩ | ⟨_, _, h⟩ | ⟨_, _, _, h⟩ | ⟨_, _, _, h⟩ <;>
    rw [h] <;> rfl

theorem t4_read_OPERATOR (c : Char) :
    tableRead transitionTable OPERATOR (getCharClass c) = some ERROR := by
  rcases t4_getCharClass_cases c with ⟨_, _, h⟩ | ⟨_, _, h⟩ | ⟨_, _, _, h⟩ | ⟨_, _, _, h⟩ <;>
    rw [h] <;> rfl

theorem t4_read_UNSIGNED_INTEGER (c : Char) :
    tableRead transitionTable UNSIGNED_INTEGER (getCharClass c) =
      some (if isdigit c = true then UNSIGNED_INTEGER else ERROR) := by
  rcases t4_getCharClass_cases c with ⟨_, hd, h⟩ | ⟨_, hd, h⟩ | ⟨_, hd, _, h⟩ | ⟨_, hd, _, h⟩ <;>
    rw [h, hd] <;> rfl

theorem t4_read_IDENTIFIER (c : Char) :
    tableRead transitionTable IDENTIFIER (getCharClass c) =
      some (if (isalpha c || isdigit c) = true then IDENTIFIER else ERROR) := by
  rcases t4_getCharClass_cases c with ⟨ha, hd, h⟩ | ⟨ha, hd, h⟩ | ⟨ha, hd, _, h⟩ |
    ⟨ha, hd, _, h⟩ <;> rw [h, ha, hd] <;> rfl

theorem t4_read_IDENTIFIER_PREFIX (c : Char) :
    tableRead transitionTable IDENTIFIER_PREFIX (getCharClass c) =
      some (if isalpha c = true then IDENTIFIER else ERROR) := by
  rcases t4_getCharClass_cases c with ⟨ha, hd, h⟩ | ⟨ha, hd, h⟩ | ⟨ha, hd, _, h⟩ |
    ⟨ha, hd, _, h⟩ <;> rw [h, ha] <;> rfl

theorem t4_read_START (c : Char) :
    tableRead transitionTable START (getCharClass c) =
      some (if isalpha c = true then IDENTIFIER_PREFIX
        else if isdigit c = true then UNSIGNED_INTEGER
        else if c = '+' ∨ c = '-' ∨ c = '*' ∨ c = '/' then OPERATOR else ERROR) := by
  rcases t4_getCharClass_cases c with ⟨ha, hd, h⟩ | ⟨ha, hd, h⟩ | ⟨ha, hd, hop, h⟩ |
    ⟨ha, hd, hop, h⟩
  · rw [h, ha]; rfl
  · rw [h, ha, hd]; rfl
  · rw [h, ha, hd]; simp [hop, tableRead, transitionTable]
  · rw [h, ha, hd]; simp [hop, tableRead, transitionTable]

theorem t4_run_ERROR (s : List Char) :
    scanLoop transitionTable getCharClass ERROR s = some ERROR := by
  induction s with
  | nil => rfl
  | cons c s ih => simp only [scanLoop_cons, t4_read_ERROR, Option.some_bind, ih]

theorem t4_run_OPERATOR (c : Char) (s : List Char) :
    scanLoop transitionTable getCharClass OPERATOR (c :: s) = some ERROR := by
  simp only [scanLoop_cons, t4_read_OPERATOR, Option.some_bind, t4_run_ERROR]

theorem t4_run_UNSIGNED_INTEGER (s : List Char) :
    scanLoop transitionTable getCharClass UNSIGNED_INTEGER s =
      some (if s.all isdigit = true then UNSIGNED_INTEGER else ERROR) := by
  induction s with
  | nil => rfl
  | cons c s ih =>
    simp only [scanLoop_cons, t4_read_UNSIGNED_INTEGER, Option.some_bind, List.all_cons]
    by_cases hd : isdigit c = true <;> simp [hd, ih, t4_run_ERROR]

theorem t4_run_IDENTIFIER (s : List Char) :
    scanLoop transitionTable getCharClass IDENTIFIER s =
      some (if s.all (fun c => isalpha c || isdigit c) = true then IDENTIFIER else ERROR) := by
  induction s with
  | nil => rfl
  | cons c s ih =>
    simp only [scanLoop_cons, t4_read_IDENTIFIER, Option.some_bind, List.all_cons]
    by_cases hd : (isalpha c || isdigit c) = true <;> simp [hd, ih, t4_run_ERROR]

theorem t4_run_IDENTIFIER_PREFIX (c : Char) (s : List Char) :
    scanLoop transitionTable getCharClass IDENTIFIER_PREFIX (c :: s) =
      some (if (isalpha c && s.all (fun c => isalpha c || isdigit c)) = true
        then IDENTIFIER else ERROR) := by
  simp only [scanLoop_cons, t4_read_IDENTIFIER_PREFIX, Option.some_bind]
  by_cases ha : isalpha c = true <;> simp [ha, t4_run_IDENTIFIER, t4_run_ERROR]

theorem t4_finalState_cons (c : Char) (r : List Char) :
    finalState (c :: r) =
      if isalpha c = true then scanLoop transitionTable getCharClass IDENTIFIER_PREFIX r
      else if isdigit c = true then scanLoop transitionTable getCharClass UNSIGNED_INTEGER r
      else if c = '+' ∨ c = '-' ∨ c = '*' ∨ c = '/' then
        scanLoop transitionTable getCharClass OPERATOR r
      else some ERROR := by
  unfold finalState
  simp only [scanLoop_cons, t4_read_START, Option.some_bind]
  split_ifs <;> first | rfl | exact t4_run_ERROR r

/-- The shapes of strings on which the automaton ends in each state other than ERROR. -/
theorem t4_finalState_cases (s : List Char) :
    (s = [] ∧ finalState s = some START) ∨
    (∃ c, s = [c] ∧ isalpha c = true ∧ finalState s = some IDENTIFIER_PREFIX) ∨
    (∃ c d r, s = c :: d :: r ∧ isalpha c = true ∧ isalpha d = true ∧
      r.all (fun x => isalpha x || isdigit x) = true ∧ finalState s = some IDENTIFIER) ∨
    (s ≠ [] ∧ s.all isdigit = true ∧ finalState s = some UNSIGNED_INTEGER) ∨
    (∃ c, s = [c] ∧ (c = '+' ∨ c = '-' ∨ c = '*' ∨ c = '/') ∧ finalState s = some OPERATOR) ∨
    (s ≠ [] ∧ finalState s = some ERROR) := by
  cases s with
  | nil => exact Or.inl ⟨rfl, rfl⟩
  | cons c r =>
    rw [t4_finalState_cons]
    by_cases ha : isalpha c = true
    · simp only [ha, if_true]
      cases r with
      | nil => exact Or.inr (Or.inl ⟨c, rfl, ha, rfl⟩)
      | cons d r =>
        rw [t4_run_IDENTIFIER_PREFIX]
        by_cases hd : (isalpha d && r.all (fun x => isalpha x || isdigit x)) = true
        · rw [if_pos hd]
          simp only [Bool.and_eq_true] at hd
          exact Or.inr (Or.inr (Or.inl ⟨c, d, r, rfl, ha, hd.1, hd.2, rfl⟩))
        · rw [if_neg hd]
          simp
    · simp only [ha, if_false]
      by_cases hd : isdigit c = true
      · simp only [hd, if_true]
        rw [t4_run_UNSIGNED_INTEGER]
        by_cases hr : r.all isdigit = true
        · rw [if_pos hr]
          exact Or.inr (Or.inr (Or.inr (Or.inl ⟨by simp, by simp [hd, hr], rfl⟩)))
        · rw [if_neg hr]; simp
      · simp only [hd, if_false]
        by_cases hop : (c = '+' ∨ c = '-' ∨ c = '*' ∨ c = '/')
        · simp only [hop, if_true]
          cases r with
          | nil => exact Or.inr (Or.inr (Or.inr (Or.inr (Or.inl ⟨c, rfl, hop, rfl⟩))))
          | cons y r => rw [t4_run_OPERATOR]; simp
        · simp [hop]

theorem t4_recogniseToken_of_finalState (s : List Char) (q : Nat) (h : finalState s = some q) :
    recogniseToken s =
      if q = IDENTIFIER ∧ strncmp s "id".toList 2 = 0 then some TokenType.TOKEN_IDENTIFIER
      else if q = UNSIGNED_INTEGER then some TokenType.TOKEN_UNSIGNED_INTEGER
      else if q = OPERATOR ∧ strlen s = 1 then some TokenType.TOKEN_OPERATOR
      else if strcmp s "in".toList = 0 then some TokenType.TOKEN_KEYWORD_IN
      else if strcmp s "out".toList = 0 then some TokenType.TOKEN_KEYWORD_OUT
      else some TokenType.TOKEN_UNKNOWN := by
  simp only [recogniseToken, h]

theorem t4_getCharClass_lt (c : Char) : getCharClass c < 4 := by
  unfold getCharClass
  split_ifs <;> decide

theorem t4_transitionTable_closed :
    ∀ q < 8, ∀ k < 4, ∃ n < 8, tableRead transitionTable q k = some n := by
  decide

theorem t4_finalState_total (s : List Char) : ∃ q, q < 8 ∧ finalState s = some q :=
  scanLoop_total transitionTable getCharClass 8 4 t4_transitionTable_closed t4_getCharClass_lt
    START (by decide) s

theorem t4_unsigned_integer_iff (s : List Char) :
    recogniseToken s = some TokenType.TOKEN_UNSIGNED_INTEGER ↔
      s ≠ [] ∧ s.all isdigit = true := by
  constructor
  · intro h
    obtain ⟨q, _, hq⟩ := t4_finalState_total s
    rw [t4_recogniseToken_of_finalState s q hq] at h
    have hq3 : q = UNSIGNED_INTEGER := by
      split_ifs at h with h1 h2 <;> first | exact h2 | cases h
    rw [hq3] at hq
    rcases t4_finalState_cases s with ⟨_, hq'⟩ | ⟨c, _, _, hq'⟩ | ⟨c, d, r, _, _, _, _, hq'⟩ |
      ⟨hne, hall, _⟩ | ⟨c, _, _, hq'⟩ | ⟨_, hq'⟩
    all_goals first
      | exact ⟨hne, hall⟩
      | (rw [hq] at hq'; exact absurd hq' (by decide))
  · rintro ⟨hne, hall⟩
    cases s with
    | nil => exact absurd rfl hne
    | cons c r =>
      simp only [List.all_cons, Bool.and_eq_true] at hall
      have hq : finalState (c :: r) = some UNSIGNED_INTEGER := by
        rw [t4_finalState_cons, isdigit_not_isalpha c hall.1]
        simp only [hall.1, if_true, Bool.false_eq_true, if_false]
        rw [t4_run_UNSIGNED_INTEGER, if_pos hall.2]
      rw [t4_recogniseToken_of_finalState _ _ hq]
      simp

end Tutorial4

/-! ## Tutorial3/lexer_tutorial_1.c: the automaton -/

namespace Tutorial3

theorem t3_getCharClass_lt (c : Char) : getCharClass c < 4 := by
  unfold getCharClass
  split_ifs <;> decide

theorem t3_transitionTable_closed :
    ∀ q < 7, ∀ k < 4, ∃ n < 7, tableRead transitionTable q k = some n := by
  decide

theorem t3_finalState_total (s : List Char) : ∃ q, q < 7 ∧ finalState s = some q :=
  scanLoop_total transitionTable getCharClass 7 4 t3_transitionTable_closed t3_getCharClass_lt
    START (by decide) s

theorem t3_recogniseToken_of_finalState (s : List Char) (q : Nat) (h : finalState s = some q) :
    recogniseToken s =
      if q = IDENTIFIER ∧ strncmp s "id".toList 2 = 0 then some TokenType.TOKEN_IDENTIFIER
      else if q = OPERATOR ∧ strlen s = 1 then some TokenType.TOKEN_OPERATOR
      else if strcmp s "in".toList = 0 then some TokenType.TOKEN_KEYWORD_IN
      else if strcmp s "out".toList = 0 then some TokenType.TOKEN_KEYWORD_OUT
      else some TokenType.TOKEN_UNKNOWN := by
  simp only [recogniseToken, h]

end Tutorial3

/-! ## lexer_float.c: the classification of tokens -/

open LexerFloat LexerFloat.TokenType

/-- Claim C1. In `lexer_float.c`, `recogniseToken` returns `TOKEN_FLOAT` exactly on the strings
made of one or more decimal digits, one dot and one or more decimal digits. So `3.14` and `0.001`
are floats, while `.5` and `5.` are unknown, the latter with final state `DOT_SEEN`. -/
theorem float_recognised_iff_float_literal :
    (∀ s : List Char, recogniseToken s = some TOKEN_FLOAT ↔ IsFloatLiteral s) ∧
    recogniseToken "3.14".toList = some TOKEN_FLOAT ∧
    recogniseToken "0.001".toList = some TOKEN_FLOAT ∧
    recogniseToken ".5".toList = some TOKEN_UNKNOWN ∧
    recogniseToken "5.".toList = some TOKEN_UNKNOWN ∧
    finalState "5.".toList = some DOT_SEEN := by
  refine ⟨fun s => ⟨fun h => ?_, fun h => ?_⟩, by decide, by decide, by decide, by decide,
    by decide⟩
  · obtain ⟨q, _, hq⟩ := finalState_total s
    rw [recogniseToken_of_finalState s q hq] at h
    have hq5 : q = FLOAT := by
      split_ifs at h with h1 h2 <;> first | exact h2.1 | cases h
    rw [hq5] at hq
    rcases finalState_cases s with ⟨_, hq'⟩ | ⟨c, _, _, hq'⟩ | ⟨c, d, r, _, _, _, _, hq'⟩ |
      ⟨_, _, hq'⟩ | ⟨a, _, _, _, hq'⟩ | ⟨a, b, hs, ha, hb, hda, hdb, _⟩ | ⟨c, _, _, hq'⟩ | ⟨_, hq'⟩
    all_goals first
      | exact ⟨a, b, hs, ha, hb, List.all_eq_true.mp hda, List.all_eq_true.mp hdb⟩
      | (rw [hq] at hq'; exact absurd hq' (by decide))
  · obtain ⟨a, b, hs, ha, hb, hda, hdb⟩ := h
    have hda2 : a.all isdigit = true := List.all_eq_true.mpr hda
    have hdb2 : b.all isdigit = true := List.all_eq_true.mpr hdb
    subst hs
    rw [recogniseToken_of_finalState _ _ (finalState_of_float_shape a b ha hb hda2 hdb2)]
    simp [floatGuard_of_shape a b ha hb hda2]

/-- Claim C2. In `lexer_float.c`, every string `id` followed by one or more ASCII letters or
decimal digits is classified `TOKEN_IDENTIFIER`. -/
theorem float_id_strings_are_identifiers (c : Char) (more : List Char)
    (hc : isalpha c = true ∨ isdigit c = true)
    (hmore : ∀ x ∈ more, isalpha x = true ∨ isdigit x = true) :
    recogniseToken ("id".toList ++ c :: more) = some TOKEN_IDENTIFIER := by
  have hall : (c :: more).all (fun x => isalpha x || isdigit x) = true := by
    rw [List.all_eq_true]
    intro x hx
    rcases List.mem_cons.mp hx with e | hx
    · simpa [e] using hc
    · simpa using hmore x hx
  have hq : finalState ("id".toList ++ c :: more) = some IDENTIFIER := by
    show finalState ('i' :: 'd' :: c :: more) = some IDENTIFIER
    rw [finalState_cons, if_pos (by decide), run_IDENTIFIER_PREFIX, hall]
    rfl
  rw [recogniseToken_of_finalState _ _ hq, if_pos]
  exact ⟨rfl, (strncmp_eq_zero_iff _ _ _).mpr rfl⟩

/-- Witness for Claim C2 at the token `idx9`. -/
theorem float_id_strings_are_identifiers_witness :
    recogniseToken "idx9".toList = some TOKEN_IDENTIFIER :=
  float_id_strings_are_identifiers 'x' "9".toList (by decide) (by decide)

/-- Claim C3. In `lexer_float.c`, a non-empty string of ASCII letters that does not start with
`id` and is neither `in` nor `out` is classified `TOKEN_UNKNOWN`, hence never
`TOKEN_IDENTIFIER`. -/
theorem float_letters_without_id_are_unknown (s : List Char) (hne : s ≠ [])
    (hletters : ∀ c ∈ s, isalpha c = true) (hid : ∀ rest, s ≠ "id".toList ++ rest)
    (hin : s ≠ "in".toList) (hout : s ≠ "out".toList) :
    recogniseToken s = some TOKEN_UNKNOWN ∧ recogniseToken s ≠ some TOKEN_IDENTIFIER := by
  have hkw1 : ¬ strcmp s ['i', 'n'] = 0 := fun e => hin ((strcmp_eq_zero_iff _ _).mp e)
  have hkw2 : ¬ strcmp s ['o', 'u', 't'] = 0 := fun e => hout ((strcmp_eq_zero_iff _ _).mp e)
  have hdigit : ∀ c ∈ s, isdigit c = false := by
    intro c hc
    cases hd : isdigit c
    · rfl
    · have := isdigit_not_isalpha c hd
      rw [hletters c hc] at this
      exact absurd this (by decide)
  have key : recogniseToken s = some TOKEN_UNKNOWN := by
    rcases finalState_cases s with ⟨h0, _⟩ | ⟨c, _, _, hq⟩ | ⟨c, d, r, hs, _, _, _, hq⟩ |
      ⟨_, hall, _⟩ | ⟨a, hs, _, _, _⟩ | ⟨a, b, hs, _, _, _, _, _⟩ | ⟨c, hs, hop, _⟩ | ⟨_, hq⟩
    · exact absurd h0 hne
    · rw [recogniseToken_of_finalState s _ hq]
      simp [hkw1, hkw2]
    · rw [recogniseToken_of_finalState s _ hq]
      have hpre : ¬ strncmp s ['i', 'd'] 2 = 0 := by
        rw [strncmp_eq_zero_iff, hs]
        intro e
        simp only [List.take_succ_cons, List.take_zero] at e
        have e2 : [c, d] = ['i', 'd'] := e
        simp only [List.cons.injEq, and_true] at e2
        apply hid r
        rw [hs, e2.1, e2.2]
        rfl
      simp [hpre, hkw1, hkw2]
    · cases s with
      | nil => exact absurd rfl hne
      | cons c r =>
        have h1 := hdigit c (List.mem_cons_self c r)
        simp only [List.all_cons, Bool.and_eq_true] at hall
        rw [hall.1] at h1
        exact absurd h1 (by decide)
    · have := hletters '.' (by rw [hs]; simp)
      exact absurd this (by decide)
    · have := hletters '.' (by rw [hs]; simp)
      exact absurd this (by decide)
    · have hc := hletters c (by rw [hs]; simp)
      rcases hop with e | e | e | e <;> subst e <;> exact absurd hc (by decide)
    · rw [recogniseToken_of_finalState s _ hq]
      simp [hkw1, hkw2]
  exact ⟨key, by rw [key]; decide⟩

/-- Witness for Claim C3 at the token `ax`. -/
theorem float_letters_without_id_are_unknown_witness :
    recogniseToken "ax".toList = some TOKEN_UNKNOWN ∧
      recogniseToken "ax".toList ≠ some TOKEN_IDENTIFIER :=
  float_letters_without_id_are_unknown "ax".toList (by decide) (by decide)
    (by intro rest; simp) (by decide) (by decide)

/-- Claim C4. In `lexer_float.c`, and likewise in `Tutorial4/lexer_tutorial_2.c`,
`recogniseToken` returns `TOKEN_UNSIGNED_INTEGER` exactly on the non-empty strings of decimal
digits, such as `123` and `0`. -/
theorem unsigned_integer_iff_nonempty_digits :
    (∀ s : List Char, LexerFloat.recogniseToken s = some TOKEN_UNSIGNED_INTEGER ↔
      s ≠ [] ∧ s.all isdigit = true) ∧
    (∀ s : List Char,
      Tutorial4.recogniseToken s = some Tutorial4.TokenType.TOKEN_UNSIGNED_INTEGER ↔
        s ≠ [] ∧ s.all isdigit = true) ∧
    LexerFloat.recogniseToken "123".toList = some TOKEN_UNSIGNED_INTEGER ∧
    LexerFloat.recogniseToken "0".toList = some TOKEN_UNSIGNED_INTEGER ∧
    Tutorial4.recogniseToken "123".toList = some Tutorial4.TokenType.TOKEN_UNSIGNED_INTEGER ∧
    Tutorial4.recogniseToken "0".toList = some Tutorial4.TokenType.TOKEN_UNSIGNED_INTEGER :=
  ⟨float_unsigned_integer_iff, Tutorial4.t4_unsigned_integer_iff, by decide, by decide,
    by decide, by decide⟩

/-- Claim C5. In `lexer_float.c`, `recogniseToken` returns `TOKEN_OPERATOR` exactly on the
one-character strings `+`, `-`, `*` and `/`; in particular `++` is `TOKEN_UNKNOWN`. -/
theorem float_operator_iff_single_symbol :
    (∀ s : List Char, recogniseToken s = some TOKEN_OPERATOR ↔
      ∃ c : Char, s = [c] ∧ (c = '+' ∨ c = '-' ∨ c = '*' ∨ c = '/')) ∧
    recogniseToken "++".toList = some TOKEN_UNKNOWN := by
  refine ⟨fun s => ⟨fun h => ?_, ?_⟩, by decide⟩
  · obtain ⟨q, _, hq⟩ := finalState_total s
    rw [recogniseToken_of_finalState s q hq] at h
    have hq8 : q = OPERATOR := by
      split_ifs at h with h1 h2 h3 h4 <;> first | exact h4.1 | cases h
    rw [hq8] at hq
    rcases finalState_cases s with ⟨_, hq'⟩ | ⟨c, _, _, hq'⟩ | ⟨c, d, r, _, _, _, _, hq'⟩ |
      ⟨_, _, hq'⟩ | ⟨a, _, _, _, hq'⟩ | ⟨a, b, _, _, _, _, _, hq'⟩ | ⟨c, hs, hop, _⟩ | ⟨_, hq'⟩
    all_goals first
      | exact ⟨c, hs, hop⟩
      | (rw [hq] at hq'; exact absurd hq' (by decide))
  · rintro ⟨c, rfl, hop⟩
    rcases hop with e | e | e | e <;> subst e <;> decide

/-- Claim C6. In `lexer_float.c`, `recogniseToken` returns `TOKEN_KEYWORD_IN` exactly on the
string `in` and `TOKEN_KEYWORD_OUT` exactly on the string `out`: the rules driven by the automaton
that are tried first never capture these two strings. -/
theorem float_keywords_iff_exact_string :
    (∀ s : List Char, recogniseToken s = some TOKEN_KEYWORD_IN ↔ s = "in".toList) ∧
    (∀ s : List Char, recogniseToken s = some TOKEN_KEYWORD_OUT ↔ s = "out".toList) := by
  refine ⟨fun s => ⟨fun h => ?_, ?_⟩, fun s => ⟨fun h => ?_, ?_⟩⟩
  · obtain ⟨q, _, hq⟩ := finalState_total s
    rw [recogniseToken_of_finalState s q hq] at h
    split_ifs at h with h1 h2 h3 h4 h5 <;>
      first | exact (strcmp_eq_zero_iff _ _).mp h5 | cases h
  · rintro rfl
    decide
  · obtain ⟨q, _, hq⟩ := finalState_total s
    rw [recogniseToken_of_finalState s q hq] at h
    split_ifs at h with h1 h2 h3 h4 h5 h6 <;>
      first | exact (strcmp_eq_zero_iff _ _).mp h6 | cases h
  · rintro rfl
    decide

/-- Claim C7. In `lexer_float.c`, on every token that begins with a decimal digit and contains an
ASCII letter, such as `12a`, the automaton ends in `ERROR` and `recogniseToken` returns
`TOKEN_UNKNOWN`. -/
theorem float_digit_then_letter_is_error (d : Char) (rest : List Char)
    (hd : isdigit d = true) (hletter : ∃ c ∈ rest, isalpha c = true) :
    finalState (d :: rest) = some ERROR ∧ recogniseToken (d :: rest) = some TOKEN_UNKNOWN := by
  obtain ⟨x, hx, hxa⟩ := hletter
  have hxd : isdigit x = false := by
    cases h : isdigit x
    · rfl
    · rw [isdigit_not_isalpha x h] at hxa; exact absurd hxa (by decide)
  have hnotall : ∀ l : List Char, x ∈ l → l.all isdigit = true → False := by
    intro l hl hall
    have := List.all_eq_true.mp hall x hl
    rw [hxd] at this
    exact absurd this (by decide)
  have hxdot : x ≠ '.' := by
    rintro rfl
    exact absurd hxa (by decide)
  have hmem : x ∈ d :: rest := List.mem_cons_of_mem d hx
  have hda : isalpha d = false := isdigit_not_isalpha d hd
  have hq : finalState (d :: rest) = some ERROR := by
    rcases finalState_cases (d :: rest) with ⟨h0, _⟩ | ⟨c, hs, _, _⟩ |
      ⟨c, e, r, hs, hca, _, _, _⟩ | ⟨_, hall, _⟩ | ⟨a, hs, _, hall, _⟩ |
      ⟨a, b, hs, _, _, hda', hdb', _⟩ | ⟨c, hs, _, _⟩ | ⟨_, hq⟩
    · exact absurd h0 (by simp)
    · simp only [List.cons.injEq] at hs
      rw [hs.2] at hx
      exact absurd hx (by simp)
    · simp only [List.cons.injEq] at hs
      rw [← hs.1, hda] at hca
      exact absurd hca (by decide)
    · exact (hnotall _ hmem hall).elim
    · rw [hs] at hmem
      rcases List.mem_append.mp hmem with h | h
      · exact (hnotall _ h hall).elim
      · simp only [List.mem_singleton] at h
        exact absurd h hxdot
    · rw [hs] at hmem
      rcases List.mem_append.mp hmem with h | h
      · exact (hnotall _ h hda').elim
      · rcases List.mem_cons.mp h with h | h
        · exact absurd h hxdot
        · exact (hnotall _ h hdb').elim
    · simp only [List.cons.injEq] at hs
      rw [hs.2] at hx
      exact absurd hx (by simp)
    · exact hq
  refine ⟨hq, ?_⟩
  have hkw1 : ¬ strcmp (d :: rest) ['i', 'n'] = 0 := by
    rw [strcmp_eq_zero_iff]
    intro e
    simp only [List.cons.injEq] at e
    rw [e.1] at hd
    exact absurd hd (by decide)
  have hkw2 : ¬ strcmp (d :: rest) ['o', 'u', 't'] = 0 := by
    rw [strcmp_eq_zero_iff]
    intro e
    simp only [List.cons.injEq] at e
    rw [e.1] at hd
    exact absurd hd (by decide)
  rw [recogniseToken_of_finalState _ _ hq]
  simp [hkw1, hkw2]

/-- Witness for Claim C7 at the token `12a`. -/
theorem float_digit_then_letter_is_error_witness :
    finalState "12a".toList = some ERROR ∧ recogniseToken "12a".toList = some TOKEN_UNKNOWN :=
  float_digit_then_letter_is_error '1' "2a".toList (by decide) ⟨'a', by decide, by decide⟩

/-- Claim C8. On the empty token the loop of `recogniseToken` makes no transition, so the final
state is `START`, and the result is `TOKEN_UNKNOWN`; this holds in `lexer_float.c` and in both
tutorial variants. -/
theorem empty_token_is_unknown :
    (LexerFloat.finalState [] = some LexerFloat.START ∧
      LexerFloat.recogniseToken [] = some TOKEN_UNKNOWN) ∧
    (Tutorial3.finalState [] = some Tutorial3.START ∧
      Tutorial3.recogniseToken [] = some Tutorial3.TokenType.TOKEN_UNKNOWN) ∧
    (Tutorial4.finalState [] = some Tutorial4.START ∧
      Tutorial4.recogniseToken [] = some Tutorial4.TokenType.TOKEN_UNKNOWN) :=
  ⟨⟨rfl, by decide⟩, ⟨rfl, by decide⟩, ⟨rfl, by decide⟩⟩

/-! ## lexer_float.c: splitting a line into tokens -/

theorem mem_delimiters_iff (c : Char) :
    c ∈ delimiters ↔ (c = ' ' ∨ c = '\t' ∨ c = '\n') := by
  simp [delimiters]

theorem maximalRuns_nil : maximalRuns [] = [] := rfl

theorem maximalRuns_cons_delimiter (d : Char) (l : List Char) (hd : d ∈ delimiters) :
    maximalRuns (d :: l) = maximalRuns l := by
  have hd2 : (d = ' ' ∨ d = '\t' ∨ d = '\n') := (mem_delimiters_iff d).mp hd
  simp [maximalRuns, List.splitOnP_cons, hd2]

theorem maximalRuns_token (t rest : List Char) (hne : t ≠ [])
    (ht : ∀ x ∈ t, x ∉ delimiters)
    (hrest : rest = [] ∨ ∃ d r, rest = d :: r ∧ d ∈ delimiters) :
    maximalRuns (t ++ rest) = t :: maximalRuns (rest.drop 1) := by
  have ht2 : ∀ x ∈ t, ¬ (fun c => decide (c = ' ' ∨ c = '\t' ∨ c = '\n')) x = true := by
    intro x hx
    have := ht x hx
    rw [mem_delimiters_iff] at this
    simpa using this
  have hemp : t.isEmpty = false := by
    cases t with
    | nil => exact absurd rfl hne
    | cons _ _ => rfl
  rcases hrest with rfl | ⟨d, r, rfl, hd⟩
  · simp only [List.append_nil, List.drop_nil, maximalRuns_nil]
    unfold maximalRuns
    rw [List.splitOnP_eq_single _ _ ht2]
    simp [hemp]
  · have hd2 : (fun c => decide (c = ' ' ∨ c = '\t' ∨ c = '\n')) d = true := by
      simpa using (mem_delimiters_iff d).mp hd
    unfold maximalRuns
    rw [List.splitOnP_first _ _ ht2 d hd2]
    simp [hemp]

/-- What one call of `strtok` does in terms of runs: NULL when no run is left, otherwise the
first run, leaving the remaining runs behind the new scan position. -/
theorem strtok_spec (save : List Char) :
    match strtok save delimiters with
    | none => maximalRuns save = []
    | some (token, save') => maximalRuns save = token :: maximalRuns save' := by
  induction save with
  | nil => simp [strtok, maximalRuns_nil]
  | cons x l ih =>
    by_cases hx : x ∈ delimiters
    · have e : strtok (x :: l) delimiters = strtok l delimiters := by
        simp [strtok, hx]
      rw [e, maximalRuns_cons_delimiter x l hx]
      exact ih
    · have e : strtok (x :: l) delimiters =
          some ((x :: l).takeWhile (fun c => !decide (c ∈ delimiters)),
            ((x :: l).dropWhile (fun c => !decide (c ∈ delimiters))).drop 1) := by
        simp [strtok, hx]
      rw [e]
      show maximalRuns (x :: l) = _ :: maximalRuns _
      have hsplit := List.takeWhile_append_dropWhile (fun c => !decide (c ∈ delimiters)) (x :: l)
      have hne : (x :: l).takeWhile (fun c => !decide (c ∈ delimiters)) ≠ [] := by
        simp [List.takeWhile_cons, hx]
      have ht : ∀ y ∈ (x :: l).takeWhile (fun c => !decide (c ∈ delimiters)),
          y ∉ delimiters := by
        intro y hy
        have := List.mem_takeWhile_imp hy
        simpa using this
      have hrest : (x :: l).dropWhile (fun c => !decide (c ∈ delimiters)) = [] ∨
          ∃ d r, (x :: l).dropWhile (fun c => !decide (c ∈ delimiters)) = d :: r ∧
            d ∈ delimiters := by
        have hhead := List.head?_dropWhile_not (fun c => !decide (c ∈ delimiters)) (x :: l)
        cases hdw : (x :: l).dropWhile (fun c => !decide (c ∈ delimiters)) with
        | nil => exact Or.inl rfl
        | cons d r =>
          rw [hdw] at hhead
          exact Or.inr ⟨d, r, rfl, by simpa using hhead⟩
      have key := maximalRuns_token _ _ hne ht hrest
      rw [hsplit] at key
      exact key

theorem lexerLoop_spec (fuel : Nat) (save : List Char)
    (hfuel : (maximalRuns save).length ≤ fuel) :
    ∃ types : List TokenType,
      List.Forall₂ (fun run type => recogniseToken run = some type) (maximalRuns save) types ∧
      lexerLoop fuel (strtok save delimiters) =
        some (List.zipWith (fun run type => printf (tokenName type) run)
          (maximalRuns save) types) := by
  induction fuel generalizing save with
  | zero =>
    have hnil : maximalRuns save = [] := List.length_eq_zero.mp (Nat.le_zero.mp hfuel)
    have hspec := strtok_spec save
    cases hst : strtok save delimiters with
    | none => exact ⟨[], by rw [hnil]; exact List.Forall₂.nil, by rw [hnil]; rfl⟩
    | some pr =>
      rw [hst, hnil] at hspec
      exact absurd hspec (by simp)
  | succ fuel ih =>
    have hspec := strtok_spec save
    cases hst : strtok save delimiters with
    | none =>
      rw [hst] at hspec
      simp only at hspec
      exact ⟨[], by rw [hspec]; exact List.Forall₂.nil, by rw [hspec]; rfl⟩
    | some pr =>
      obtain ⟨token, save'⟩ := pr
      rw [hst] at hspec
      simp only at hspec
      rw [hspec] at hfuel ⊢
      simp only [List.length_cons, Nat.add_le_add_iff_right] at hfuel
      obtain ⟨types, hall, hloop⟩ := ih save' hfuel
      obtain ⟨q, _, hq⟩ := finalState_total token
      obtain ⟨type, htype⟩ : ∃ type, recogniseToken token = some type := by
        rw [recogniseToken_of_finalState token q hq]
        split_ifs <;> exact ⟨_, rfl⟩
      refine ⟨type :: types, List.Forall₂.cons htype hall, ?_⟩
      simp only [lexerLoop, htype, hloop, List.zipWith_cons_cons]

/-- Claim C9. In `lexer_float.c`, `lexer` processes exactly the maximal non-empty runs of
characters other than space, tab and newline, from left to right, and prints for each run the
name of the category `recogniseToken` gives it. For `id1 + 23 out 3.14 $` the runs are `id1`,
`+`, `23`, `out`, `3.14`, `$` and the categories are Identifier, Operator, UnsignedInteger,
KeywordOut, Float, Unknown. The line has to fit the 100 byte buffer of `lexer` (every line read by
`main` does), and the loop body runs once per run. -/
theorem lexer_reports_each_maximal_run :
    (∀ (line : List Char) (fuel : Nat), strlen line < 100 → (maximalRuns line).length ≤ fuel →
      ∃ types : List TokenType,
        List.Forall₂ (fun run type => recogniseToken run = some type) (maximalRuns line) types ∧
        lexer fuel line =
          some (List.zipWith (fun run type => printf (tokenName type) run)
            (maximalRuns line) types)) ∧
    maximalRuns "id1 + 23 out 3.14 $".toList =
      ["id1".toList, "+".toList, "23".toList, "out".toList, "3.14".toList, "$".toList] ∧
    List.map recogniseToken
        ["id1".toList, "+".toList, "23".toList, "out".toList, "3.14".toList, "$".toList] =
      [some TOKEN_IDENTIFIER, some TOKEN_OPERATOR, some TOKEN_UNSIGNED_INTEGER,
        some TOKEN_KEYWORD_OUT, some TOKEN_FLOAT, some TOKEN_UNKNOWN] ∧
    lexer 6 "id1 + 23 out 3.14 $".toList =
      some ["Token: Identifier; String: id1\n".toList, "Token: Operator; String: +\n".toList,
        "Token: Unsigned Integer; String: 23\n".toList,
        "Token: Keyword 'out'; String: out\n".toList,
        "Token: Floating Point; String: 3.14\n".toList,
        "Token: Unknown; String: $\n".toList] := by
  refine ⟨fun line fuel hlen hfuel => ?_, by decide, by decide, by decide⟩
  obtain ⟨types, hall, hloop⟩ := lexerLoop_spec fuel line hfuel
  exact ⟨types, hall, by simp only [lexer, hlen, if_true, hloop]⟩

/-- Witness for Claim C9 at the line `in  9 x` followed by a newline, with fuel 3. -/
theorem lexer_reports_each_maximal_run_witness :
    ∃ types : List TokenType,
      List.Forall₂ (fun run type => recogniseToken run = some type)
        (maximalRuns "in  9 x\n".toList) types ∧
      lexer 3 "in  9 x\n".toList =
        some (List.zipWith (fun run type => printf (tokenName type) run)
          (maximalRuns "in  9 x\n".toList) types) :=
  lexer_reports_each_maximal_run.1 "in  9 x\n".toList 3 (by decide) (by decide)

/-- Claim C10. For every token string, every read `transitionTable[state][charClass]` made by
`recogniseToken` is inside the table: whenever the token splits into a scanned part `p`, the
character `c` being read and a rest `q`, the state reached on `p` and the class of `c` are within
the bounds of the array (10 x 5 in `lexer_float.c`, 7 x 4 and 8 x 4 in the tutorials) and the read
yields a state. The scan therefore ends and `recogniseToken` returns a member of `TokenType`. -/
theorem table_reads_in_bounds_and_result_defined :
    (∀ (s p q : List Char) (c : Char), s = p ++ c :: q →
      ∃ st, LexerFloat.finalState p = some st ∧ st < 10 ∧ LexerFloat.getCharClass c < 5 ∧
        ∃ next, tableRead LexerFloat.transitionTable st (LexerFloat.getCharClass c) =
          some next) ∧
    (∀ s : List Char, ∃ type : LexerFloat.TokenType, LexerFloat.recogniseToken s = some type) ∧
    (∀ (s p q : List Char) (c : Char), s = p ++ c :: q →
      ∃ st, Tutorial3.finalState p = some st ∧ st < 7 ∧ Tutorial3.getCharClass c < 4 ∧
        ∃ next, tableRead Tutorial3.transitionTable st (Tutorial3.getCharClass c) =
          some next) ∧
    (∀ s : List Char, ∃ type : Tutorial3.TokenType, Tutorial3.recogniseToken s = some type) ∧
    (∀ (s p q : List Char) (c : Char), s = p ++ c :: q →
      ∃ st, Tutorial4.finalState p = some st ∧ st < 8 ∧ Tutorial4.getCharClass c < 4 ∧
        ∃ next, tableRead Tutorial4.transitionTable st (Tutorial4.getCharClass c) =
          some next) ∧
    (∀ s : List Char, ∃ type : Tutorial4.TokenType, Tutorial4.recogniseToken s = some type) := by
  refine ⟨?_, ?_, ?_, ?_, ?_, ?_⟩
  · intro s p q c _
    obtain ⟨st, hst, hq⟩ := LexerFloat.finalState_total p
    have hc := LexerFloat.getCharClass_lt c
    obtain ⟨n, _, hn⟩ := LexerFloat.transitionTable_closed st hst _ hc
    exact ⟨st, hq, hst, hc, n, hn⟩
  · intro s
    obtain ⟨q, _, hq⟩ := LexerFloat.finalState_total s
    rw [LexerFloat.recogniseToken_of_finalState s q hq]
    split_ifs <;> exact ⟨_, rfl⟩
  · intro s p q c _
    obtain ⟨st, hst, hq⟩ := Tutorial3.t3_finalState_total p
    have hc := Tutorial3.t3_getCharClass_lt c
    obtain ⟨n, _, hn⟩ := Tutorial3.t3_transitionTable_closed st hst _ hc
    exact ⟨st, hq, hst, hc, n, hn⟩
  · intro s
    obtain ⟨q, _, hq⟩ := Tutorial3.t3_finalState_total s
    rw [Tutorial3.t3_recogniseToken_of_finalState s q hq]
    split_ifs <;> exact ⟨_, rfl⟩
  · intro s p q c _
    obtain ⟨st, hst, hq⟩ := Tutorial4.t4_finalState_total p
    have hc := Tutorial4.t4_getCharClass_lt c
    obtain ⟨n, _, hn⟩ := Tutorial4.t4_transitionTable_closed st hst _ hc
    exact ⟨st, hq, hst, hc, n, hn⟩
  · intro s
    obtain ⟨q, _, hq⟩ := Tutorial4.t4_finalState_total s
    rw [Tutorial4.t4_recogniseToken_of_finalState s q hq]
    split_ifs <;> exact ⟨_, rfl⟩

/-- Witness for Claim C10: the token `3.14` of `lexer_float.c` while its third character is
read. -/
theorem table_reads_in_bounds_and_result_defined_witness :
    ∃ st, LexerFloat.finalState "3.".toList = some st ∧ st < 10 ∧
      LexerFloat.getCharClass '1' < 5 ∧
      ∃ next, tableRead LexerFloat.transitionTable st (LexerFloat.getCharClass '1') =
        some next :=
  table_reads_in_bounds_and_result_defined.1 "3.14".toList "3.".toList "4".toList '1' rfl

/-! ## The ERROR state and the character classes -/

/-- Claim C11. In each of the three lexer tables the `ERROR` row maps every character class to
`ERROR`, and so, for all strings `p` and `q`, if the automaton is in `ERROR` after `p` then it is
in `ERROR` after `p` followed by `q`. -/
theorem error_state_is_absorbing :
    ((∀ k < 5, tableRead LexerFloat.transitionTable LexerFloat.ERROR k =
        some LexerFloat.ERROR) ∧
      (∀ p q : List Char, LexerFloat.finalState p = some LexerFloat.ERROR →
        LexerFloat.finalState (p ++ q) = some LexerFloat.ERROR)) ∧
    ((∀ k < 4, tableRead Tutorial3.transitionTable Tutorial3.ERROR k =
        some Tutorial3.ERROR) ∧
      (∀ p q : List Char, Tutorial3.finalState p = some Tutorial3.ERROR →
        Tutorial3.finalState (p ++ q) = some Tutorial3.ERROR)) ∧
    ((∀ k < 4, tableRead Tutorial4.transitionTable Tutorial4.ERROR k =
        some Tutorial4.ERROR) ∧
      (∀ p q : List Char, Tutorial4.finalState p = some Tutorial4.ERROR →
        Tutorial4.finalState (p ++ q) = some Tutorial4.ERROR)) := by
  have row5 : ∀ k < 5, tableRead LexerFloat.transitionTable LexerFloat.ERROR k =
      some LexerFloat.ERROR := by decide
  have row3 : ∀ k < 4, tableRead Tutorial3.transitionTable Tutorial3.ERROR k =
      some Tutorial3.ERROR := by decide
  have row4 : ∀ k < 4, tableRead Tutorial4.transitionTable Tutorial4.ERROR k =
      some Tutorial4.ERROR := by decide
  refine ⟨⟨row5, fun p q h => ?_⟩, ⟨row3, fun p q h => ?_⟩, ⟨row4, fun p q h => ?_⟩⟩
  · unfold LexerFloat.finalState at h ⊢
    rw [scanLoop_append, h, Option.some_bind]
    exact scanLoop_absorbing _ _ _ 5 row5 LexerFloat.getCharClass_lt q
  · unfold Tutorial3.finalState at h ⊢
    rw [scanLoop_append, h, Option.some_bind]
    exact scanLoop_absorbing _ _ _ 4 row3 Tutorial3.t3_getCharClass_lt q
  · unfold Tutorial4.finalState at h ⊢
    rw [scanLoop_append, h, Option.some_bind]
    exact scanLoop_absorbing _ _ _ 4 row4 Tutorial4.t4_getCharClass_lt q

/-- Witness for Claim C11: in `lexer_float.c` the token `12a` is in `ERROR`, and so is `12a3`. -/
theorem error_state_is_absorbing_witness :
    LexerFloat.finalState "12a".toList = some LexerFloat.ERROR ∧
      LexerFloat.finalState ("12a".toList ++ "3".toList) = some LexerFloat.ERROR :=
  ⟨by decide, error_state_is_absorbing.1.2 "12a".toList "3".toList (by decide)⟩

/-- Claim C12. In `lexer_float.c`, `getCharClass c` is `CHAR_LETTER` exactly when `c` is
alphabetic (`A`..`Z`, `a`..`z`), `CHAR_DIGIT` exactly when `c` is a decimal digit,
`CHAR_OPERATOR` exactly when `c` is one of `+ - * /`, `CHAR_DOT` exactly when `c` is the dot, and
`CHAR_UNKNOWN` in every other case, whitespace included. The five classes are pairwise different
and every character falls in one of them. -/
theorem getCharClass_partitions_characters :
    (∀ c : Char,
      (isalpha c = true ↔
        ('A'.toNat ≤ c.toNat ∧ c.toNat ≤ 'Z'.toNat) ∨
          ('a'.toNat ≤ c.toNat ∧ c.toNat ≤ 'z'.toNat)) ∧
      (isdigit c = true ↔ ('0'.toNat ≤ c.toNat ∧ c.toNat ≤ '9'.toNat)) ∧
      (getCharClass c = CHAR_LETTER ↔ isalpha c = true) ∧
      (getCharClass c = CHAR_DIGIT ↔ isdigit c = true) ∧
      (getCharClass c = CHAR_OPERATOR ↔ (c = '+' ∨ c = '-' ∨ c = '*' ∨ c = '/')) ∧
      (getCharClass c = CHAR_DOT ↔ c = '.') ∧
      (getCharClass c = CHAR_UNKNOWN ↔
        (isalpha c = false ∧ isdigit c = false ∧
          ¬(c = '+' ∨ c = '-' ∨ c = '*' ∨ c = '/') ∧ c ≠ '.')) ∧
      (getCharClass c = CHAR_LETTER ∨ getCharClass c = CHAR_DIGIT ∨
        getCharClass c = CHAR_OPERATOR ∨ getCharClass c = CHAR_DOT ∨
        getCharClass c = CHAR_UNKNOWN)) ∧
    [CHAR_LETTER, CHAR_DIGIT, CHAR_OPERATOR, CHAR_DOT, CHAR_UNKNOWN].Nodup ∧
    getCharClass ' ' = CHAR_UNKNOWN ∧ getCharClass '\t' = CHAR_UNKNOWN ∧
    getCharClass '\n' = CHAR_UNKNOWN := by
  refine ⟨fun c => ⟨?_, ?_, ?_⟩, by decide, by decide, by decide, by decide⟩
  · simp only [isalpha, Bool.or_eq_true, Bool.and_eq_true, decide_eq_true_eq]
    exact Iff.rfl
  · simp only [isdigit, Bool.and_eq_true, decide_eq_true_eq]
    exact Iff.rfl
  · rcases getCharClass_cases c with ⟨ha, hd, h⟩ | ⟨ha, hd, h⟩ | ⟨ha, hd, hop, h⟩ |
      ⟨ha, hd, hdot, h⟩ | ⟨ha, hd, hop, hdot, h⟩
    · have hdot : c ≠ '.' := by rintro rfl; exact absurd ha (by decide)
      have hop : ¬(c = '+' ∨ c = '-' ∨ c = '*' ∨ c = '/') := by
        rintro (e | e | e | e) <;> subst e <;> exact absurd ha (by decide)
      simp [h, ha, hd, hdot, hop]
    · have hdot : c ≠ '.' := by rintro rfl; exact absurd hd (by decide)
      have hop : ¬(c = '+' ∨ c = '-' ∨ c = '*' ∨ c = '/') := by
        rintro (e | e | e | e) <;> subst e <;> exact absurd hd (by decide)
      simp [h, ha, hd, hdot, hop]
    · have hdot : c ≠ '.' := by rcases hop with e | e | e | e <;> subst e <;> decide
      simp [h, ha, hd, hdot, hop]
    · subst hdot
      decide
    · simp [h, ha, hd, hdot, hop]

/-! ## fsm.c and the table-driven machine of Week 3 Practice 2 -/

theorem fsm_step_of_le_one (q : Nat) (hq : q ≤ 1) (c : Char) :
    Fsm.step q c = if c = '0' then 0 else 1 := by
  interval_cases q <;> rfl

theorem fsm_step_le_one (q : Nat) (hq : q ≤ 1) (c : Char) : Fsm.step q c ≤ 1 := by
  rw [fsm_step_of_le_one q hq c]
  split_ifs <;> decide

theorem fsm_loop_le_one (input : List Char) (q : Nat) (hq : q ≤ 1) : Fsm.loop q input ≤ 1 := by
  induction input generalizing q with
  | nil => exact hq
  | cons c rest ih => exact ih _ (fsm_step_le_one q hq c)

theorem fsm_loop_concat (input : List Char) (q : Nat) (c : Char) :
    Fsm.loop q (input ++ [c]) = Fsm.step (Fsm.loop q input) c := by
  induction input generalizing q with
  | nil => rfl
  | cons x rest ih => exact ih _

/-- The machine of `fsm.c` ends in state 1 exactly when there is a last character and it is not
the character `0`. -/
theorem fsm_loop_eq_one_iff (input : List Char) :
    Fsm.loop 0 input = 1 ↔ ∃ c, input.getLast? = some c ∧ c ≠ '0' := by
  rcases List.eq_nil_or_concat input with rfl | ⟨init, c, rfl⟩
  · simp [Fsm.loop]
  · rw [List.concat_eq_append, fsm_loop_concat,
      fsm_step_of_le_one _ (fsm_loop_le_one init 0 (by decide)) c, List.getLast?_concat]
    by_cases hc : c = '0' <;> simp [hc]

theorem fsm_accepted_ne_rejected :
    "The string is accepted (ends with 1).\n" ≠
      "The string is rejected (does not end with 1).\n" := by
  decide

theorem fsm_main_accepts_iff (input : List Char) :
    Fsm.main input = "The string is accepted (ends with 1).\n" ↔ Fsm.loop 0 input = 1 := by
  unfold Fsm.main
  by_cases h : Fsm.loop 0 input = 1
  · simp [h]
  · simp only [h, if_false, iff_false]
    exact fun e => fsm_accepted_ne_rejected e.symm

theorem binary_last_ne_zero_iff (input : List Char) (hbin : ∀ c ∈ input, c = '0' ∨ c = '1') :
    (∃ c, input.getLast? = some c ∧ c ≠ '0') ↔
      (1 ≤ input.length ∧ input.getLast? = some '1') := by
  constructor
  · rintro ⟨c, hc, hne⟩
    have hmem : c ∈ input := List.mem_of_getLast?_eq_some hc
    have hlen : 1 ≤ input.length := List.length_pos_of_mem hmem
    rcases hbin c hmem with e | e
    · exact absurd e hne
    · exact ⟨hlen, by rw [hc, e]⟩
  · rintro ⟨_, h⟩
    exact ⟨'1', h, by decide⟩

/-- Claim C13. The switch-based machine of `fsm.c`, run from state 0 over `n` characters drawn
from `0` and `1`, ends in state 1, and `main` prints the acceptance line, exactly when `n >= 1`
and the last character is `1`; the empty input is rejected. -/
theorem fsm_accepts_iff_last_character_is_one :
    (∀ input : List Char, (∀ c ∈ input, c = '0' ∨ c = '1') →
      (Fsm.loop 0 input = 1 ↔ (1 ≤ input.length ∧ input.getLast? = some '1')) ∧
      (Fsm.main input = "The string is accepted (ends with 1).\n" ↔
        (1 ≤ input.length ∧ input.getLast? = some '1'))) ∧
    Fsm.loop 0 [] = 0 ∧
    Fsm.main [] = "The string is rejected (does not end with 1).\n" ∧
    Fsm.main "1011".toList = "The string is accepted (ends with 1).\n" := by
  refine ⟨fun input hbin => ?_, rfl, by decide, by decide⟩
  have h1 := (fsm_loop_eq_one_iff input).trans (binary_last_ne_zero_iff input hbin)
  exact ⟨h1, (fsm_main_accepts_iff input).trans h1⟩

/-- Witness for Claim C13 at the input `1010` of the header comment of `fsm.c`. -/
theorem fsm_accepts_iff_last_character_is_one_witness :
    (Fsm.loop 0 "1010".toList = 1 ↔
        (1 ≤ "1010".toList.length ∧ "1010".toList.getLast? = some '1')) ∧
      (Fsm.main "1010".toList = "The string is accepted (ends with 1).\n" ↔
        (1 ≤ "1010".toList.length ∧ "1010".toList.getLast? = some '1')) :=
  fsm_accepts_iff_last_character_is_one.1 "1010".toList (by decide)

namespace Week3Practice2

theorem w3_getInputIndex_eq_neg_one_iff (c : Char) :
    getInputIndex c = -1 ↔ (c ≠ '0' ∧ c ≠ '1') := by
  unfold getInputIndex
  by_cases h0 : c = '0'
  · simp [h0]
  · by_cases h1 : c = '1'
    · simp [h1]
    · simp [h0, h1]

theorem w3_loop_zero (q : Nat) (hq : q ≤ 1) (index : Nat) (rest : List Char) :
    loop q index ('0' :: rest) = loop 0 (index + 1) rest := by
  interval_cases q <;> rfl

theorem w3_loop_one (q : Nat) (hq : q ≤ 1) (index : Nat) (rest : List Char) :
    loop q index ('1' :: rest) = loop 1 (index + 1) rest := by
  interval_cases q <;> rfl

theorem w3_loop_invalid (q index : Nat) (c : Char) (rest : List Char) (h0 : c ≠ '0')
    (h1 : c ≠ '1') : loop q index (c :: rest) = LoopExit.invalid index := by
  have h : getInputIndex c = -1 := (w3_getInputIndex_eq_neg_one_iff c).mpr ⟨h0, h1⟩
  simp only [loop, h, if_true]

/-- Over characters `0` and `1` the table-driven loop finishes in the state the `switch` of
`fsm.c` reaches. -/
theorem w3_loop_binary (input : List Char) (hbin : ∀ c ∈ input, c = '0' ∨ c = '1') (q : Nat)
    (hq : q ≤ 1) (index : Nat) :
    loop q index input = LoopExit.finished (Fsm.loop q input) := by
  induction input generalizing q index with
  | nil => rfl
  | cons c rest ih =>
    have hrest : ∀ x ∈ rest, x = '0' ∨ x = '1' :=
      fun x hx => hbin x (List.mem_cons_of_mem c hx)
    have hstep := fsm_step_of_le_one q hq c
    rcases hbin c (List.mem_cons_self c rest) with e | e
    · subst e
      rw [w3_loop_zero q hq, ih hrest 0 (by decide)]
      simp only [Fsm.loop, hstep, if_true]
    · subst e
      rw [w3_loop_one q hq, ih hrest 1 (by decide)]
      have : Fsm.step q '1' = 1 := by rw [hstep]; decide
      simp only [Fsm.loop, this]

theorem w3_loop_stops_at_first_invalid (p : List Char) (c : Char) (rest : List Char)
    (hbin : ∀ x ∈ p, x = '0' ∨ x = '1') (h0 : c ≠ '0') (h1 : c ≠ '1') (q : Nat) (hq : q ≤ 1)
    (index : Nat) :
    loop q index (p ++ c :: rest) = LoopExit.invalid (index + p.length) := by
  induction p generalizing q index with
  | nil => simpa using w3_loop_invalid q index c rest h0 h1
  | cons x p ih =>
    have hp : ∀ y ∈ p, y = '0' ∨ y = '1' := fun y hy => hbin y (List.mem_cons_of_mem x hy)
    rcases hbin x (List.mem_cons_self x p) with e | e
    · subst e
      rw [List.cons_append, w3_loop_zero q hq, ih hp 0 (by decide)]
      simp only [List.length_cons]
      congr 1
      omega
    · subst e
      rw [List.cons_append, w3_loop_one q hq, ih hp 1 (by decide)]
      simp only [List.length_cons]
      congr 1
      omega

theorem w3_loop_in_bounds (input : List Char) (q : Nat) (hq : q ≤ 1) (index : Nat) :
    loop q index input ≠ LoopExit.outOfBounds := by
  induction input generalizing q index with
  | nil => simp [loop]
  | cons c rest ih =>
    by_cases h0 : c = '0'
    · subst h0
      rw [w3_loop_zero q hq]
      exact ih 0 (by decide) _
    · by_cases h1 : c = '1'
      · subst h1
        rw [w3_loop_one q hq]
        exact ih 1 (by decide) _
      · rw [w3_loop_invalid q index c rest h0 h1]
        simp

theorem w3_main_binary (input : List Char) (hbin : ∀ c ∈ input, c = '0' ∨ c = '1') :
    main input = some (Fsm.main input) := by
  unfold main Fsm.main
  rw [w3_loop_binary input hbin 0 (by decide) 0]
  simp only
  split_ifs <;> rfl

end Week3Practice2

/-- Claim C14. In the table-driven machine of Week 3 Practice 2 (second program of
`Tutorial4/lexer_tutorial_2.c`), if some character is neither `0` nor `1` the run stops at the
first such character with the rejection for invalid characters, and the table is never read
outside its bounds, so never with the index -1 that `getInputIndex` gives for such a character.
Otherwise the string is accepted exactly when `n >= 1` and its last character is `1`, and the line
printed is the one `fsm.c` prints. -/
theorem table_machine_rejects_invalid_and_agrees_with_fsm :
    (∀ (p rest : List Char) (c : Char), (∀ x ∈ p, x = '0' ∨ x = '1') → c ≠ '0' → c ≠ '1' →
      Week3Practice2.getInputIndex c = -1 ∧
      Week3Practice2.loop Week3Practice2.STATE_0 0 (p ++ c :: rest) =
        Week3Practice2.LoopExit.invalid p.length ∧
      Week3Practice2.main (p ++ c :: rest) =
        some "The string is rejected (contains invalid characters).\n") ∧
    (∀ input : List Char,
      Week3Practice2.loop Week3Practice2.STATE_0 0 input ≠
        Week3Practice2.LoopExit.outOfBounds) ∧
    (∀ state : Nat, tableReadSigned Week3Practice2.transitionTable state (-1) = none) ∧
    (∀ input : List Char, (∀ c ∈ input, c = '0' ∨ c = '1') →
      (Week3Practice2.main input = some "The string is accepted (ends with 1).\n" ↔
        (1 ≤ input.length ∧ input.getLast? = some '1')) ∧
      Week3Practice2.main input = some (Fsm.main input)) := by
  refine ⟨fun p rest c hbin h0 h1 => ?_, fun input => ?_, fun state => rfl,
    fun input hbin => ?_⟩
  · have hloop := Week3Practice2.w3_loop_stops_at_first_invalid p c rest hbin h0 h1 0
      (by decide) 0
    rw [Nat.zero_add] at hloop
    refine ⟨(Week3Practice2.w3_getInputIndex_eq_neg_one_iff c).mpr ⟨h0, h1⟩, hloop, ?_⟩
    unfold Week3Practice2.main
    rw [hloop]
  · exact Week3Practice2.w3_loop_in_bounds input 0 (by decide) 0
  · have hmain := Week3Practice2.w3_main_binary input hbin
    refine ⟨?_, hmain⟩
    rw [hmain]
    have h1 := (fsm_main_accepts_iff input).trans
      ((fsm_loop_eq_one_iff input).trans (binary_last_ne_zero_iff input hbin))
    rw [← h1]
    exact ⟨fun e => Option.some.inj e, fun e => by rw [e]⟩

/-- Witness for Claim C14: the input `10a1` stops at position 2, and on the input `1011` of the
source the machine accepts, as `fsm.c` does. -/
theorem table_machine_rejects_invalid_and_agrees_with_fsm_witness :
    (Week3Practice2.getInputIndex 'a' = -1 ∧
      Week3Practice2.loop Week3Practice2.STATE_0 0 ("10".toList ++ 'a' :: "1".toList) =
        Week3Practice2.LoopExit.invalid "10".toList.length ∧
      Week3Practice2.main ("10".toList ++ 'a' :: "1".toList) =
        some "The string is rejected (contains invalid characters).\n") ∧
    ((Week3Practice2.main "1011".toList = some "The string is accepted (ends with 1).\n" ↔
        (1 ≤ "1011".toList.length ∧ "1011".toList.getLast? = some '1')) ∧
      Week3Practice2.main "1011".toList = some (Fsm.main "1011".toList)) :=
  ⟨table_machine_rejects_invalid_and_agrees_with_fsm.1 "10".toList "1".toList 'a' (by decide)
      (by decide) (by decide),
    table_machine_rejects_invalid_and_agrees_with_fsm.2.2.2 "1011".toList (by decide)⟩

/-! ## lexer_float.c: the category, the final state and the global memory -/

/-- Claim C15. In `lexer_float.c` the category is not a function of the final state alone: two
tokens reach the same final state and get different categories. The tokens `id` and `in` both end
in `IDENTIFIER`, and are an identifier and the keyword `in`. -/
theorem category_is_not_a_function_of_final_state :
    (∃ (s t : List Char) (q : Nat), finalState s = some q ∧ finalState t = some q ∧
      recogniseToken s ≠ recogniseToken t) ∧
    (¬ ∃ f : Nat → TokenType, ∀ (s : List Char) (q : Nat),
      finalState s = some q → recogniseToken s = some (f q)) ∧
    finalState "id".toList = some IDENTIFIER ∧ finalState "in".toList = some IDENTIFIER ∧
    recogniseToken "id".toList = some TOKEN_IDENTIFIER ∧
    recogniseToken "in".toList = some TOKEN_KEYWORD_IN := by
  refine ⟨⟨"id".toList, "in".toList, IDENTIFIER, by decide, by decide, by decide⟩, ?_,
    by decide, by decide, by decide, by decide⟩
  rintro ⟨f, hf⟩
  have h1 := hf "id".toList IDENTIFIER (by decide)
  have h2 := hf "in".toList IDENTIFIER (by decide)
  rw [← h2] at h1
  exact absurd h1 (by decide)

namespace LexerFloat

theorem assignState_frame (m m' : Memory) (c : Char) (h : assignState m c = some m') :
    m'.transitionTable = m.transitionTable ∧ m'.input = m.input ∧ m'.i = m.i := by
  unfold assignState at h
  cases hread : tableRead m.transitionTable m.state (getCharClass c) with
  | none => simp [hread] at h
  | some next =>
    simp only [hread, Option.some.injEq] at h
    subst h
    exact ⟨rfl, rfl, rfl⟩

/-- Running the loop leaves the array and the string as they were. -/
theorem whileLoop_frame (fuel : Nat) (m m' : Memory) (h : whileLoop fuel m = some m') :
    m'.transitionTable = m.transitionTable ∧ m'.input = m.input := by
  induction fuel generalizing m with
  | zero =>
    simp only [whileLoop] at h
    cases hget : m.input[m.i]? with
    | none =>
      simp only [hget, Option.some.injEq] at h
      subst h
      exact ⟨rfl, rfl⟩
    | some c => simp [hget] at h
  | succ fuel ih =>
    simp only [whileLoop] at h
    cases hget : m.input[m.i]? with
    | none =>
      simp only [hget, Option.some.injEq] at h
      subst h
      exact ⟨rfl, rfl⟩
    | some c =>
      simp only [hget] at h
      cases hassign : assignState m c with
      | none => simp [hassign] at h
      | some m1 =>
        simp only [hassign] at h
        obtain ⟨ht, hi, _⟩ := assignState_frame m m1 c hassign
        obtain ⟨ht', hi'⟩ := ih (incrementI m1) h
        exact ⟨ht'.trans ht, hi'.trans hi⟩

/-- With enough fuel the loop on the memory ends in the state the scan of the rest of the string
ends in. -/
theorem whileLoop_scan (fuel : Nat) (m : Memory) (st : Nat)
    (hfuel : m.input.length ≤ m.i + fuel)
    (hscan : scanLoop m.transitionTable getCharClass m.state (m.input.drop m.i) = some st) :
    ∃ m', whileLoop fuel m = some m' ∧ m'.state = st := by
  induction fuel generalizing m with
  | zero =>
    have hle : m.input.length ≤ m.i := by omega
    have hget : m.input[m.i]? = none := List.getElem?_eq_none hle
    rw [List.drop_eq_nil_of_le hle, scanLoop_nil, Option.some.injEq] at hscan
    exact ⟨m, by simp only [whileLoop, hget], hscan⟩
  | succ fuel ih =>
    cases hget : m.input[m.i]? with
    | none =>
      have hle : m.input.length ≤ m.i := List.getElem?_eq_none_iff.mp hget
      rw [List.drop_eq_nil_of_le hle, scanLoop_nil, Option.some.injEq] at hscan
      exact ⟨m, by simp only [whileLoop, hget], hscan⟩
    | some c =>
      obtain ⟨hlt, hc⟩ := List.getElem?_eq_some.mp hget
      rw [List.drop_eq_getElem_cons hlt, hc, scanLoop_cons] at hscan
      cases hread : tableRead m.transitionTable m.state (getCharClass c) with
      | none => simp [hread] at hscan
      | some next =>
        rw [hread, Option.some_bind] at hscan
        have hassign : assignState m c = some { m with state := next } := by
          simp only [assignState, hread]
        obtain ⟨m', hloop, hst⟩ := ih (incrementI { m with state := next })
          (by simp only [incrementI]; omega) (by simpa only [incrementI] using hscan)
        exact ⟨m', by simp only [whileLoop, hget, hassign, hloop], hst⟩

/-- With the array of the program and enough fuel, a call returns, in the final state of
`finalState` and with the token type of `recogniseToken`, and leaves the array and the string as
they were. -/
theorem recogniseTokenCall_spec (fuel : Nat) (input : List Char) (hfuel : input.length ≤ fuel) :
    ∃ (type : TokenType) (m : Memory),
      recogniseTokenCall fuel transitionTable input = some (type, m) ∧
      m.transitionTable = transitionTable ∧ m.input = input ∧
      finalState input = some m.state ∧ recogniseToken input = some type := by
  obtain ⟨q, _, hq⟩ := finalState_total input
  obtain ⟨m, hloop, hst⟩ := whileLoop_scan fuel
    { transitionTable := transitionTable, input := input, state := START, i := 0 } q
    (by simpa using hfuel) (by simpa using hq)
  obtain ⟨ht, hi⟩ := whileLoop_frame fuel _ m hloop
  refine ⟨returnedType m, m, by simp only [recogniseTokenCall, hloop], ht, hi,
    by rw [hst]; exact hq, ?_⟩
  rw [recogniseToken_of_finalState input q hq]
  have hi' : m.input = input := hi
  unfold returnedType
  rw [hst, hi']
  split_ifs <;> rfl

theorem tableAfterCalls_program (fuel : Nat) (tokens : List (List Char))
    (hfuel : ∀ t ∈ tokens, t.length ≤ fuel) :
    tableAfterCalls fuel transitionTable tokens = some transitionTable := by
  induction tokens with
  | nil => rfl
  | cons token tokens ih =>
    obtain ⟨type, m, hcall, ht, _⟩ :=
      recogniseTokenCall_spec fuel token (hfuel token (List.mem_cons_self token tokens))
    simp only [tableAfterCalls, hcall, ht]
    exact ih (fun t ht' => hfuel t (List.mem_cons_of_mem token ht'))

end LexerFloat

/-- Claim C16. In `lexer_float.c`, `recogniseToken` is deterministic and stateless. Run statement
by statement on the memory, a call assigns only its locals `state` and `i`: whatever the array
holds and whatever the token, the array `transitionTable` and the string behind `input` are at the
return what they were at the call. So when a token is classified, then any tokens are classified
in between, and then the first token is classified again, the second call finds the array of the
program and reaches the same final state and returns the same category as the first, which are
those of `finalState` and `recogniseToken`. Every call needs one unit of fuel per character. -/
theorem recogniseToken_is_deterministic_and_stateless :
    (∀ (fuel : Nat) (table : List (List Nat)) (input : List Char) (type : TokenType)
        (m : Memory), recogniseTokenCall fuel table input = some (type, m) →
      m.transitionTable = table ∧ m.input = input) ∧
    (∀ (s : List Char) (between : List (List Char)) (fuel : Nat), s.length ≤ fuel →
      (∀ t ∈ between, t.length ≤ fuel) →
      ∃ (type : TokenType) (m1 m2 : Memory) (table : List (List Nat)),
        recogniseTokenCall fuel transitionTable s = some (type, m1) ∧
        tableAfterCalls fuel m1.transitionTable between = some table ∧
        table = transitionTable ∧
        recogniseTokenCall fuel table s = some (type, m2) ∧
        m2.state = m1.state ∧
        finalState s = some m1.state ∧ recogniseToken s = some type) := by
  refine ⟨fun fuel table input type m h => ?_, fun s between fuel hs hbetween => ?_⟩
  · unfold recogniseTokenCall at h
    cases hloop : whileLoop fuel
        { transitionTable := table, input := input, state := START, i := 0 } with
    | none => simp [hloop] at h
    | some m' =>
      simp only [hloop, Option.some.injEq, Prod.mk.injEq] at h
      obtain ⟨ht, hi⟩ := whileLoop_frame fuel _ m' hloop
      rw [← h.2]
      exact ⟨ht, hi⟩
  · obtain ⟨type, m1, hcall, ht, _, hfinal, htype⟩ := recogniseTokenCall_spec fuel s hs
    refine ⟨type, m1, m1, transitionTable, hcall, ?_, rfl, hcall, rfl, hfinal, htype⟩
    rw [ht]
    exact tableAfterCalls_program fuel between hbetween

/-- Witness for Claim C16: the token `3.14` classified, then `in` and `12a`, then `3.14` again,
with fuel 4. -/
theorem recogniseToken_is_deterministic_and_stateless_witness :
    ∃ (type : TokenType) (m1 m2 : Memory) (table : List (List Nat)),
      recogniseTokenCall 4 transitionTable "3.14".toList = some (type, m1) ∧
      tableAfterCalls 4 m1.transitionTable ["in".toList, "12a".toList] = some table ∧
      table = transitionTable ∧
      recogniseTokenCall 4 table "3.14".toList = some (type, m2) ∧
      m2.state = m1.state ∧
      finalState "3.14".toList = some m1.state ∧ recogniseToken "3.14".toList = some type :=
  recogniseToken_is_deterministic_and_stateless.2 "3.14".toList ["in".toList, "12a".toList] 4
    (by decide) (by decide)

/-- The lines printed by the loop of `lexer` all come from its one `printf`. -/
theorem lexerLoop_lines (fuel : Nat) (token : Option (List Char × List Char))
    (out : List (List Char)) (h : lexerLoop fuel token = some out) :
    ∀ l ∈ out, ∃ (type : TokenType) (tok : List Char), l = printf (tokenName type) tok := by
  induction fuel generalizing token out with
  | zero =>
    cases token with
    | none =>
      simp only [lexerLoop, Option.some.injEq] at h
      subst h
      simp
    | some pr => simp [lexerLoop] at h
  | succ fuel ih =>
    cases token with
    | none =>
      simp only [lexerLoop, Option.some.injEq] at h
      subst h
      simp
    | some pr =>
      obtain ⟨tok, save⟩ := pr
      simp only [lexerLoop] at h
      cases hty : recogniseToken tok with
      | none => simp [hty] at h
      | some type =>
        cases hrest : lexerLoop fuel (strtok save delimiters) with
        | none => simp [hty, hrest] at h
        | some rest =>
          simp only [hty, hrest, Option.some.injEq] at h
          subst h
          intro l hl
          rcases List.mem_cons.mp hl with e | hl
          · exact ⟨type, tok, e⟩
          · exact ih _ rest hrest l hl

/-- Claim C17. In `lexer_float.c` the map from token types to the display names used by `lexer`
is one-to-one: the seven types get the seven pairwise different names `Keyword 'in'`,
`Keyword 'out'`, `Unsigned Integer`, `Floating Point`, `Operator`, `Identifier` and `Unknown`.
Every line printed by `lexer` reads `Token: `, a name, `; String: `, the token, and a newline. -/
theorem token_names_are_one_to_one :
    Function.Injective tokenName ∧
    List.map tokenName [TOKEN_KEYWORD_IN, TOKEN_KEYWORD_OUT, TOKEN_UNSIGNED_INTEGER,
        TOKEN_FLOAT, TOKEN_OPERATOR, TOKEN_IDENTIFIER, TOKEN_UNKNOWN] =
      ["Keyword 'in'", "Keyword 'out'", "Unsigned Integer", "Floating Point", "Operator",
        "Identifier", "Unknown"] ∧
    ["Keyword 'in'", "Keyword 'out'", "Unsigned Integer", "Floating Point", "Operator",
      "Identifier", "Unknown"].Nodup ∧
    (∀ (fuel : Nat) (line : List Char) (out : List (List Char)), lexer fuel line = some out →
      ∀ l ∈ out, ∃ (type : TokenType) (token : List Char),
        l = "Token: ".toList ++ (tokenName type).toList ++ "; String: ".toList ++ token ++
          "\n".toList) := by
  refine ⟨?_, rfl, by decide, ?_⟩
  · intro a b h
    cases a <;> cases b <;> first | rfl | exact absurd h (by decide)
  · intro fuel line out h l hl
    unfold lexer at h
    split_ifs at h
    exact lexerLoop_lines fuel _ out h l hl

/-- Witness for Claim C17: the lines printed for `in 7`. -/
theorem token_names_are_one_to_one_witness :
    lexer 2 "in 7".toList =
        some ["Token: Keyword 'in'; String: in\n".toList,
          "Token: Unsigned Integer; String: 7\n".toList] ∧
      ∀ l ∈ ["Token: Keyword 'in'; String: in\n".toList,
          "Token: Unsigned Integer; String: 7\n".toList],
        ∃ (type : TokenType) (token : List Char),
          l = "Token: ".toList ++ (tokenName type).toList ++ "; String: ".toList ++ token ++
            "\n".toList :=
  ⟨by decide, token_names_are_one_to_one.2.2.2 2 "in 7".toList _ (by decide)⟩

/-! ## lexer_float.c: the Float guard, several dots, and the token `++` -/

theorem strchr_dot_of_shape (a b : List Char) (hda : a.all isdigit = true) :
    strchr (a ++ '.' :: b) '.' = some a.length ∧
      List.drop (a.length + 1) (a ++ '.' :: b) = b := by
  have hnot : ∀ x ∈ a, x ≠ '.' := by
    intro x hx hdot
    have := List.all_eq_true.mp hda x hx
    rw [hdot] at this
    exact absurd this (by decide)
  refine ⟨strchr_append_of_not_mem a b '.' hnot, ?_⟩
  rw [List.drop_append_eq_append_drop]
  simp

theorem finalState_FLOAT_shape (s : List Char) (h : finalState s = some FLOAT) :
    ∃ a b : List Char, s = a ++ '.' :: b ∧ a ≠ [] ∧ b ≠ [] ∧ a.all isdigit = true ∧
      b.all isdigit = true := by
  rcases finalState_cases s with ⟨_, hq'⟩ | ⟨c, _, _, hq'⟩ | ⟨c, d, r, _, _, _, _, hq'⟩ |
    ⟨_, _, hq'⟩ | ⟨a, _, _, _, hq'⟩ | ⟨a, b, hs, ha, hb, hda, hdb, _⟩ | ⟨c, _, _, hq'⟩ | ⟨_, hq'⟩
  all_goals first
    | exact ⟨a, b, hs, ha, hb, hda, hdb⟩
    | (rw [h] at hq'; exact absurd hq' (by decide))

/-- Claim C18. In `lexer_float.c` the guard of the Float rule is redundant under the given table:
whenever the final state is `FLOAT`, `strchr` finds a dot, the dot is not the first character, and
the numbers of characters before and after it are both positive, so the guard holds and the result
is `TOKEN_FLOAT`. Hence `recogniseToken` equals the variant whose Float rule is `state == FLOAT`
alone. -/
theorem float_guard_is_redundant :
    (∀ s : List Char, finalState s = some FLOAT →
      ∃ dot : Nat, strchr s '.' = some dot ∧ dot ≠ 0 ∧ 0 < dot ∧
        0 < strlen (s.drop (dot + 1)) ∧ floatGuard s = true ∧
        recogniseToken s = some TOKEN_FLOAT) ∧
    (∀ s : List Char, recogniseToken s = recogniseTokenWithoutFloatGuard s) := by
  have guard : ∀ s : List Char, finalState s = some FLOAT → floatGuard s = true := by
    intro s h
    obtain ⟨a, b, rfl, ha, hb, hda, _⟩ := finalState_FLOAT_shape s h
    exact floatGuard_of_shape a b ha hb hda
  refine ⟨fun s h => ?_, fun s => ?_⟩
  · obtain ⟨a, b, hs, ha, hb, hda, _⟩ := finalState_FLOAT_shape s h
    have hg := guard s h
    subst hs
    obtain ⟨hchr, hdrop⟩ := strchr_dot_of_shape a b hda
    have hpos : 0 < a.length := List.length_pos.mpr ha
    refine ⟨a.length, hchr, Nat.pos_iff_ne_zero.mp hpos, hpos, ?_, hg, ?_⟩
    · rw [hdrop]
      exact List.length_pos.mpr hb
    · rw [recogniseToken_of_finalState _ _ h]
      simp [hg]
  · obtain ⟨q, _, hq⟩ := finalState_total s
    rw [recogniseToken_of_finalState s q hq]
    simp only [recogniseTokenWithoutFloatGuard, hq]
    by_cases h5 : q = FLOAT
    · have hg := guard s (h5 ▸ hq)
      simp only [h5, hg, and_true]
    · simp only [h5, false_and]

/-- Witness for Claim C18 at the token `3.14`. -/
theorem float_guard_is_redundant_witness :
    ∃ dot : Nat, strchr "3.14".toList '.' = some dot ∧ dot ≠ 0 ∧ 0 < dot ∧
      0 < strlen ("3.14".toList.drop (dot + 1)) ∧ floatGuard "3.14".toList = true ∧
      recogniseToken "3.14".toList = some TOKEN_FLOAT :=
  float_guard_is_redundant.1 "3.14".toList (by decide)

theorem count_dot_of_digits (a : List Char) (h : a.all isdigit = true) : a.count '.' = 0 := by
  rw [List.count_eq_zero]
  intro hm
  have := List.all_eq_true.mp h '.' hm
  exact absurd this (by decide)

theorem count_dot_of_alnum (a : List Char)
    (h : a.all (fun x => isalpha x || isdigit x) = true) : a.count '.' = 0 := by
  rw [List.count_eq_zero]
  intro hm
  have := List.all_eq_true.mp h '.' hm
  exact absurd this (by decide)

theorem count_dot_singleton (c : Char) (h : c ≠ '.') : [c].count '.' = 0 := by
  rw [List.count_eq_zero]
  simpa using h.symm

/-- Claim C19. In `lexer_float.c`, on every token with two or more dots the automaton ends in
`ERROR`, so neither in `FLOAT` nor in `DOT_SEEN`, and `recogniseToken` returns `TOKEN_UNKNOWN`.
In particular the table sends `DOT_SEEN` to `ERROR` on a dot and on a letter. -/
theorem float_rejects_tokens_with_several_dots :
    (∀ s : List Char, 2 ≤ s.count '.' →
      finalState s = some ERROR ∧ finalState s ≠ some FLOAT ∧ finalState s ≠ some DOT_SEEN ∧
      recogniseToken s = some TOKEN_UNKNOWN) ∧
    tableRead transitionTable DOT_SEEN CHAR_DOT = some ERROR ∧
    tableRead transitionTable DOT_SEEN CHAR_LETTER = some ERROR := by
  refine ⟨fun s h2 => ?_, rfl, rfl⟩
  have hq : finalState s = some ERROR := by
    rcases finalState_cases s with ⟨h0, _⟩ | ⟨c, hs, hc, _⟩ | ⟨c, d, r, hs, hc, hd, hr, _⟩ |
      ⟨_, hall, _⟩ | ⟨a, hs, _, hall, _⟩ | ⟨a, b, hs, _, _, hda, hdb, _⟩ | ⟨c, hs, hop, _⟩ |
      ⟨_, hq⟩
    · rw [h0] at h2
      exact absurd h2 (by decide)
    · have hne : c ≠ '.' := by rintro rfl; exact absurd hc (by decide)
      rw [hs, count_dot_singleton c hne] at h2
      exact absurd h2 (by decide)
    · have hne1 : c ≠ '.' := by rintro rfl; exact absurd hc (by decide)
      have hne2 : d ≠ '.' := by rintro rfl; exact absurd hd (by decide)
      have e : s = [c] ++ ([d] ++ r) := by rw [hs]; rfl
      rw [e, List.count_append, List.count_append, count_dot_singleton c hne1,
        count_dot_singleton d hne2, count_dot_of_alnum r hr] at h2
      exact absurd h2 (by decide)
    · rw [count_dot_of_digits s hall] at h2
      exact absurd h2 (by decide)
    · rw [hs, List.count_append, count_dot_of_digits a hall] at h2
      exact absurd h2 (by decide)
    · have e : s = a ++ (['.'] ++ b) := by rw [hs]; rfl
      rw [e, List.count_append, List.count_append, count_dot_of_digits a hda,
        count_dot_of_digits b hdb] at h2
      exact absurd h2 (by decide)
    · have hne : c ≠ '.' := by rcases hop with e | e | e | e <;> subst e <;> decide
      rw [hs, count_dot_singleton c hne] at h2
      exact absurd h2 (by decide)
    · exact hq
  have hkw1 : ¬ strcmp s ['i', 'n'] = 0 := by
    rw [strcmp_eq_zero_iff]
    rintro rfl
    exact absurd h2 (by decide)
  have hkw2 : ¬ strcmp s ['o', 'u', 't'] = 0 := by
    rw [strcmp_eq_zero_iff]
    rintro rfl
    exact absurd h2 (by decide)
  refine ⟨hq, by rw [hq]; decide, by rw [hq]; decide, ?_⟩
  rw [recogniseToken_of_finalState _ _ hq]
  simp [hkw1, hkw2]

/-- Witness for Claim C19 at the token `1.2.3`. -/
theorem float_rejects_tokens_with_several_dots_witness :
    finalState "1.2.3".toList = some ERROR ∧ finalState "1.2.3".toList ≠ some FLOAT ∧
      finalState "1.2.3".toList ≠ some DOT_SEEN ∧
      recogniseToken "1.2.3".toList = some TOKEN_UNKNOWN :=
  float_rejects_tokens_with_several_dots.1 "1.2.3".toList (by decide)

/-- Claim C20, refuted as stated: in `lexer_float.c` the final state of the token `++` is not
`OPERATOR`. -/
theorem double_plus_final_state_is_not_operator :
    ¬ (finalState "++".toList = some OPERATOR) := by
  decide

/-- Claim C20, amended. In `lexer_float.c`, for the token `++` the automaton is in `OPERATOR`
after the first `+` and ends in `ERROR`, because the `OPERATOR` row of the table sends every class
to `ERROR`. The Operator rule does not fire because the final state is not `OPERATOR` (the length,
2, is not 1 either), and the token is `TOKEN_UNKNOWN`. -/
theorem double_plus_ends_in_error :
    finalState "+".toList = some OPERATOR ∧
    finalState "++".toList = some ERROR ∧
    transitionTable[OPERATOR]? = some [ERROR, ERROR, ERROR, ERROR, ERROR] ∧
    strlen "++".toList = 2 ∧
    recogniseToken "++".toList = some TOKEN_UNKNOWN := by
  refine ⟨by decide, by decide, rfl, rfl, by decide⟩

/-! ## lexer_float.c: the order of the acceptance rules -/

theorem recogniseTokenInOrder_sourceOrder (s : List Char) :
    recogniseTokenInOrder sourceOrder s = recogniseToken s := by
  obtain ⟨q, _, hq⟩ := finalState_total s
  rw [recogniseToken_of_finalState s q hq]
  simp only [recogniseTokenInOrder, hq, sourceOrder, firstMatch, AcceptanceRule.fires,
    AcceptanceRule.result, decide_eq_true_eq]
  split_ifs <;> rfl

/-- At the final state of a token at most one of the six rules has its condition true. -/
theorem acceptance_rules_exclusive (s : List Char) (q : Nat) (hq : finalState s = some q)
    (r r' : AcceptanceRule) (hr : r.fires q s = true) (hr' : r'.fires q s = true) : r = r' := by
  have hin : s = "in".toList → q = 7 := by
    rintro rfl
    have : finalState "in".toList = some IDENTIFIER := by decide
    rw [this] at hq
    exact (Option.some.inj hq).symm
  have hout : s = "out".toList → q = 7 := by
    rintro rfl
    have : finalState "out".toList = some IDENTIFIER := by decide
    rw [this] at hq
    exact (Option.some.inj hq).symm
  have hin2 : s = "in".toList → ¬ strncmp s "id".toList 2 = 0 := by
    rintro rfl
    decide
  have hout2 : s = "out".toList → ¬ strncmp s "id".toList 2 = 0 := by
    rintro rfl
    decide
  have hinout : s = "in".toList → s ≠ "out".toList := by
    rintro rfl
    decide
  cases r <;> cases r' <;>
    simp only [AcceptanceRule.fires, decide_eq_true_eq, strcmp_eq_zero_iff, IDENTIFIER, FLOAT,
      UNSIGNED_INTEGER, OPERATOR] at hr hr' <;>
    first
      | rfl
      | (exfalso; omega)
      | (exfalso; have := hin hr; omega)
      | (exfalso; have := hin hr'; omega)
      | (exfalso; have := hout hr; omega)
      | (exfalso; have := hout hr'; omega)
      | (exfalso; exact hin2 hr hr'.2)
      | (exfalso; exact hin2 hr' hr.2)
      | (exfalso; exact hout2 hr hr'.2)
      | (exfalso; exact hout2 hr' hr.2)
      | (exfalso; exact hinout hr hr')
      | (exfalso; exact hinout hr' hr)

theorem firstMatch_of_none_fires (order : List AcceptanceRule) (q : Nat) (s : List Char)
    (h : ∀ r ∈ order, r.fires q s = false) : firstMatch order q s = TOKEN_UNKNOWN := by
  induction order with
  | nil => rfl
  | cons r rest ih =>
    have hr := h r (List.mem_cons_self r rest)
    simp only [firstMatch, hr, Bool.false_eq_true, if_false]
    exact ih (fun r' hr' => h r' (List.mem_cons_of_mem r hr'))

theorem firstMatch_of_only_rule (order : List AcceptanceRule) (q : Nat) (s : List Char)
    (r : AcceptanceRule) (hmem : r ∈ order) (hr : r.fires q s = true)
    (honly : ∀ r' : AcceptanceRule, r'.fires q s = true → r' = r) :
    firstMatch order q s = r.result := by
  induction order with
  | nil => exact absurd hmem (List.not_mem_nil r)
  | cons x rest ih =>
    by_cases hx : x.fires q s = true
    · simp only [firstMatch, hx, if_true]
      rw [honly x hx]
    · simp only [firstMatch, hx, if_false]
      rcases List.mem_cons.mp hmem with e | hrest
      · rw [e] at hr
        exact absurd hr hx
      · exact ih hrest

/-- At the final state of a token, two orders that hold the same rules give the same result. -/
theorem firstMatch_same_rules (s : List Char) (q : Nat) (hq : finalState s = some q)
    (o1 o2 : List AcceptanceRule) (h : ∀ r, r ∈ o1 ↔ r ∈ o2) :
    firstMatch o1 q s = firstMatch o2 q s := by
  by_cases hex : ∃ r ∈ o1, AcceptanceRule.fires r q s = true
  · obtain ⟨r, hmem, hr⟩ := hex
    have honly : ∀ r' : AcceptanceRule, r'.fires q s = true → r' = r :=
      fun r' hr' => acceptance_rules_exclusive s q hq r' r hr' hr
    rw [firstMatch_of_only_rule o1 q s r hmem hr honly,
      firstMatch_of_only_rule o2 q s r ((h r).mp hmem) hr honly]
  · have hnone : ∀ r ∈ o1, AcceptanceRule.fires r q s = false := by
      intro r hmem
      cases hf : AcceptanceRule.fires r q s
      · rfl
      · exact absurd ⟨r, hmem, hf⟩ hex
    rw [firstMatch_of_none_fires o1 q s hnone,
      firstMatch_of_none_fires o2 q s (fun r hmem => hnone r ((h r).mpr hmem))]

theorem recogniseTokenInOrder_of_perm (order : List AcceptanceRule) (s : List Char)
    (hperm : order.Perm sourceOrder) : recogniseTokenInOrder order s = recogniseToken s := by
  rw [← recogniseTokenInOrder_sourceOrder s]
  obtain ⟨q, _, hq⟩ := finalState_total s
  simp only [recogniseTokenInOrder, hq]
  rw [firstMatch_same_rules s q hq order sourceOrder (fun r => hperm.mem_iff)]

/-- Claim C21, refuted as stated: in `lexer_float.c` there is no token on which the six
acceptance rules, tried in another order, give a category other than the one `recogniseToken`
returns. -/
theorem no_token_tells_rule_orders_apart :
    ¬ ∃ (s : List Char) (order : List AcceptanceRule),
      order.Perm sourceOrder ∧ recogniseTokenInOrder order s ≠ recogniseToken s := by
  rintro ⟨s, order, hperm, hne⟩
  exact hne (recogniseTokenInOrder_of_perm order s hperm)

/-- Claim C21, amended. In `lexer_float.c` the order of the six acceptance checks does not change
the result: trying the rules in the order of the source is `recogniseToken`, and trying them in
any other order of the same six rules, for instance with the keyword checks first, gives the same
category on every token. -/
theorem rule_order_does_not_change_category :
    (∀ s : List Char, recogniseTokenInOrder sourceOrder s = recogniseToken s) ∧
    (∀ (order : List AcceptanceRule) (s : List Char), order.Perm sourceOrder →
      recogniseTokenInOrder order s = recogniseToken s) ∧
    (∀ s : List Char, recogniseTokenInOrder keywordsFirstOrder s = recogniseToken s) :=
  ⟨recogniseTokenInOrder_sourceOrder, recogniseTokenInOrder_of_perm,
    fun s => recogniseTokenInOrder_of_perm keywordsFirstOrder s (by decide)⟩

/-- Witness for the amended Claim C21: the keyword checks first, on the token `in`. -/
theorem rule_order_does_not_change_category_witness :
    recogniseTokenInOrder keywordsFirstOrder "in".toList = recogniseToken "in".toList :=
  rule_order_does_not_change_category.2.1 keywordsFirstOrder "in".toList (by decide)

/-! ## The keyword placeholder states -/

theorem tableRead_mem (table : List (List Nat)) (q k n : Nat)
    (h : tableRead table q k = some n) : ∃ row ∈ table, n ∈ row := by
  unfold tableRead at h
  cases hrow : table[q]? with
  | none => simp [hrow] at h
  | some row =>
    simp only [hrow] at h
    exact ⟨row, List.getElem?_mem hrow, List.getElem?_mem h⟩

/-- A scan that starts in a state with property `P` over a table all of whose entries have
property `P` ends in a state with property `P`. -/
theorem scanLoop_invariant (table : List (List Nat)) (g : Char → Nat) (P : Nat → Prop)
    (hT : ∀ row ∈ table, ∀ n ∈ row, P n) (s : List Char) (q n : Nat) (hq : P q)
    (h : scanLoop table g q s = some n) : P n := by
  induction s generalizing q with
  | nil =>
    simp only [scanLoop_nil, Option.some.injEq] at h
    exact h ▸ hq
  | cons c s ih =>
    rw [scanLoop_cons] at h
    cases hread : tableRead table q (g c) with
    | none => simp [hread] at h
    | some m =>
      rw [hread, Option.some_bind] at h
      obtain ⟨row, hrow, hm⟩ := tableRead_mem table q (g c) m hread
      exact ih m (hT row hrow m hm) h

/-- Claim C22. In the three lexer variants the keyword placeholder states are unused: no entry of
the table is `IN_KEYWORD` or `OUT_KEYWORD`, and for every token and every beginning `p` of it the
state reached from `START` on `p` is neither of the two. -/
theorem keyword_states_are_never_reached :
    ((∀ row ∈ LexerFloat.transitionTable, ∀ n ∈ row,
        n ≠ LexerFloat.IN_KEYWORD ∧ n ≠ LexerFloat.OUT_KEYWORD) ∧
      (∀ s p r : List Char, s = p ++ r →
        ∃ st, LexerFloat.finalState p = some st ∧
          st ≠ LexerFloat.IN_KEYWORD ∧ st ≠ LexerFloat.OUT_KEYWORD)) ∧
    ((∀ row ∈ Tutorial3.transitionTable, ∀ n ∈ row,
        n ≠ Tutorial3.IN_KEYWORD ∧ n ≠ Tutorial3.OUT_KEYWORD) ∧
      (∀ s p r : List Char, s = p ++ r →
        ∃ st, Tutorial3.finalState p = some st ∧
          st ≠ Tutorial3.IN_KEYWORD ∧ st ≠ Tutorial3.OUT_KEYWORD)) ∧
    ((∀ row ∈ Tutorial4.transitionTable, ∀ n ∈ row,
        n ≠ Tutorial4.IN_KEYWORD ∧ n ≠ Tutorial4.OUT_KEYWORD) ∧
      (∀ s p r : List Char, s = p ++ r →
        ∃ st, Tutorial4.finalState p = some st ∧
          st ≠ Tutorial4.IN_KEYWORD ∧ st ≠ Tutorial4.OUT_KEYWORD)) := by
  have hF : ∀ row ∈ LexerFloat.transitionTable, ∀ n ∈ row,
      n ≠ LexerFloat.IN_KEYWORD ∧ n ≠ LexerFloat.OUT_KEYWORD := by decide
  have h3 : ∀ row ∈ Tutorial3.transitionTable, ∀ n ∈ row,
      n ≠ Tutorial3.IN_KEYWORD ∧ n ≠ Tutorial3.OUT_KEYWORD := by decide
  have h4 : ∀ row ∈ Tutorial4.transitionTable, ∀ n ∈ row,
      n ≠ Tutorial4.IN_KEYWORD ∧ n ≠ Tutorial4.OUT_KEYWORD := by decide
  refine ⟨⟨hF, fun s p r _ => ?_⟩, ⟨h3, fun s p r _ => ?_⟩, ⟨h4, fun s p r _ => ?_⟩⟩
  · obtain ⟨st, _, hst⟩ := LexerFloat.finalState_total p
    exact ⟨st, hst, scanLoop_invariant _ _ (fun n => n ≠ 1 ∧ n ≠ 2) hF p _ st
      (by decide) hst⟩
  · obtain ⟨st, _, hst⟩ := Tutorial3.t3_finalState_total p
    exact ⟨st, hst, scanLoop_invariant _ _ (fun n => n ≠ 1 ∧ n ≠ 2) h3 p _ st
      (by decide) hst⟩
  · obtain ⟨st, _, hst⟩ := Tutorial4.t4_finalState_total p
    exact ⟨st, hst, scanLoop_invariant _ _ (fun n => n ≠ 1 ∧ n ≠ 2) h4 p _ st
      (by decide) hst⟩

/-- Witness for Claim C22: the beginning `ou` of the token `out` in `lexer_float.c`. -/
theorem keyword_states_are_never_reached_witness :
    ∃ st, LexerFloat.finalState "ou".toList = some st ∧
      st ≠ LexerFloat.IN_KEYWORD ∧ st ≠ LexerFloat.OUT_KEYWORD :=
  keyword_states_are_never_reached.1.2 "out".toList "ou".toList "t".toList rfl

/-! ## The three lexers compared -/

/-- Two scans whose tables respect a relation between states, started in related states, both end
and end in related states. -/
theorem scanLoop_simulation (T1 T2 : List (List Nat)) (g1 g2 : Char → Nat)
    (R : Nat → Nat → Prop)
    (hstep : ∀ q1 q2 c, R q1 q2 →
      ∃ n1 n2, tableRead T1 q1 (g1 c) = some n1 ∧ tableRead T2 q2 (g2 c) = some n2 ∧ R n1 n2)
    (s : List Char) (q1 q2 : Nat) (h : R q1 q2) :
    ∃ n1 n2, scanLoop T1 g1 q1 s = some n1 ∧ scanLoop T2 g2 q2 s = some n2 ∧ R n1 n2 := by
  induction s generalizing q1 q2 with
  | nil => exact ⟨q1, q2, rfl, rfl, h⟩
  | cons c s ih =>
    obtain ⟨n1, n2, h1, h2, hR⟩ := hstep q1 q2 c h
    obtain ⟨m1, m2, hm1, hm2, hR'⟩ := ih n1 n2 hR
    exact ⟨m1, m2, by simp [scanLoop_cons, h1, hm1], by simp [scanLoop_cons, h2, hm2], hR'⟩

theorem float_t4_class_pairs (c : Char) :
    (LexerFloat.getCharClass c, Tutorial4.getCharClass c) ∈
      [(0, 0), (1, 1), (2, 2), (3, 3), (4, 3)] := by
  unfold LexerFloat.getCharClass Tutorial4.getCharClass
  split_ifs <;> decide

/-- The final states of `lexer_float.c` and of `lexer_tutorial_2.c` on the same token: the same
state by name, except that `DOT_SEEN` and `FLOAT` face `ERROR`. -/
theorem float_t4_final_states (s : List Char) :
    ∃ qf q4, LexerFloat.finalState s = some qf ∧ Tutorial4.finalState s = some q4 ∧
      (qf, q4) ∈ [(0, 0), (3, 3), (4, 7), (5, 7), (6, 4), (7, 5), (8, 6), (9, 7)] := by
  have hfin : ∀ pr ∈ [(0, 0), (3, 3), (4, 7), (5, 7), (6, 4), (7, 5), (8, 6), (9, 7)],
      ∀ cp ∈ [(0, 0), (1, 1), (2, 2), (3, 3), (4, 3)],
      ∃ pr' ∈ [(0, 0), (3, 3), (4, 7), (5, 7), (6, 4), (7, 5), (8, 6), (9, 7)],
        tableRead LexerFloat.transitionTable pr.1 cp.1 = some pr'.1 ∧
        tableRead Tutorial4.transitionTable pr.2 cp.2 = some pr'.2 := by
    decide
  exact scanLoop_simulation LexerFloat.transitionTable Tutorial4.transitionTable
    LexerFloat.getCharClass Tutorial4.getCharClass
    (fun a b => (a, b) ∈ [(0, 0), (3, 3), (4, 7), (5, 7), (6, 4), (7, 5), (8, 6), (9, 7)])
    (fun q1 q2 c hR => by
      obtain ⟨pr', hmem, h1, h2⟩ := hfin (q1, q2) hR _ (float_t4_class_pairs c)
      exact ⟨pr'.1, pr'.2, h1, h2, hmem⟩)
    s 0 0 (by decide)

theorem t4_t3_class_eq (c : Char) : Tutorial4.getCharClass c = Tutorial3.getCharClass c := rfl

/-- The final states of `lexer_tutorial_2.c` and of `lexer_tutorial_1.c` on the same token: the
same state by name, except that `UNSIGNED_INTEGER` faces `ERROR`. -/
theorem t4_t3_final_states (s : List Char) :
    ∃ q4 q3, Tutorial4.finalState s = some q4 ∧ Tutorial3.finalState s = some q3 ∧
      (q4, q3) ∈ [(0, 0), (3, 6), (4, 3), (5, 4), (6, 5), (7, 6)] := by
  have hfin : ∀ pr ∈ [(0, 0), (3, 6), (4, 3), (5, 4), (6, 5), (7, 6)],
      ∀ k ∈ [0, 1, 2, 3],
      ∃ pr' ∈ [(0, 0), (3, 6), (4, 3), (5, 4), (6, 5), (7, 6)],
        tableRead Tutorial4.transitionTable pr.1 k = some pr'.1 ∧
        tableRead Tutorial3.transitionTable pr.2 k = some pr'.2 := by
    decide
  have hk : ∀ c, Tutorial4.getCharClass c ∈ [0, 1, 2, 3] := by
    intro c
    have := Tutorial4.t4_getCharClass_lt c
    generalize Tutorial4.getCharClass c = k at this
    interval_cases k <;> decide
  exact scanLoop_simulation Tutorial4.transitionTable Tutorial3.transitionTable
    Tutorial4.getCharClass Tutorial3.getCharClass
    (fun a b => (a, b) ∈ [(0, 0), (3, 6), (4, 3), (5, 4), (6, 5), (7, 6)])
    (fun q1 q2 c hR => by
      obtain ⟨pr', hmem, h1, h2⟩ := hfin (q1, q2) hR _ (hk c)
      exact ⟨pr'.1, pr'.2, h1, t4_t3_class_eq c ▸ h2, hmem⟩)
    s 0 0 (by decide)

theorem float_t4_compare (s : List Char) (tf : LexerFloat.TokenType)
    (t4 : Tutorial4.TokenType) (h1 : LexerFloat.recogniseToken s = some tf)
    (h2 : Tutorial4.recogniseToken s = some t4) :
    if tf = TOKEN_FLOAT then t4 = Tutorial4.TokenType.TOKEN_UNKNOWN
    else tf = sameNameInFloat t4 := by
  obtain ⟨qf, q4, hqf, hq4, hmem⟩ := float_t4_final_states s
  have hin : strcmp s "in".toList = 0 → qf = 7 := by
    intro e
    have hfs : LexerFloat.finalState "in".toList = some 7 := by decide
    rw [(strcmp_eq_zero_iff _ _).mp e, hfs] at hqf
    exact (Option.some.inj hqf).symm
  have hout : strcmp s "out".toList = 0 → qf = 7 := by
    intro e
    have hfs : LexerFloat.finalState "out".toList = some 7 := by decide
    rw [(strcmp_eq_zero_iff _ _).mp e, hfs] at hqf
    exact (Option.some.inj hqf).symm
  rw [LexerFloat.recogniseToken_of_finalState s qf hqf] at h1
  rw [Tutorial4.t4_recogniseToken_of_finalState s q4 hq4] at h2
  simp only [List.mem_cons, Prod.mk.injEq, List.mem_singleton, List.not_mem_nil, or_false]
    at hmem
  rcases hmem with ⟨e0, d0⟩ | ⟨e3, d3⟩ | ⟨e4, d7⟩ | ⟨e5, d7⟩ | ⟨e6, d4⟩ | ⟨e7, d5⟩ | ⟨e8, d6⟩ |
    ⟨e9, d7⟩
  all_goals subst_vars
  all_goals simp at h1 h2 hin hout
  all_goals try simp only [hin, hout, if_false] at h1 h2
  all_goals try split_ifs at h1 h2
  all_goals try simp only [Option.some.injEq] at h1 h2
  all_goals (subst h1; subst h2; decide)

theorem t4_t3_compare (s : List Char) (t4 : Tutorial4.TokenType) (t3 : Tutorial3.TokenType)
    (h1 : Tutorial4.recogniseToken s = some t4) (h2 : Tutorial3.recogniseToken s = some t3) :
    if t4 = Tutorial4.TokenType.TOKEN_UNSIGNED_INTEGER then
      t3 = Tutorial3.TokenType.TOKEN_UNKNOWN
    else t4 = sameNameInTutorial4 t3 := by
  obtain ⟨q4, q3, hq4, hq3, hmem⟩ := t4_t3_final_states s
  have hin : strcmp s "in".toList = 0 → q4 = 5 := by
    intro e
    have hfs : Tutorial4.finalState "in".toList = some 5 := by decide
    rw [(strcmp_eq_zero_iff _ _).mp e, hfs] at hq4
    exact (Option.some.inj hq4).symm
  have hout : strcmp s "out".toList = 0 → q4 = 5 := by
    intro e
    have hfs : Tutorial4.finalState "out".toList = some 5 := by decide
    rw [(strcmp_eq_zero_iff _ _).mp e, hfs] at hq4
    exact (Option.some.inj hq4).symm
  rw [Tutorial4.t4_recogniseToken_of_finalState s q4 hq4] at h1
  rw [Tutorial3.t3_recogniseToken_of_finalState s q3 hq3] at h2
  simp only [List.mem_cons, Prod.mk.injEq, List.mem_singleton, List.not_mem_nil, or_false]
    at hmem
  rcases hmem with ⟨e0, d0⟩ | ⟨e3, d6⟩ | ⟨e4, d3⟩ | ⟨e5, d4⟩ | ⟨e6, d5⟩ | ⟨e7, d6⟩
  all_goals subst_vars
  all_goals simp at h1 h2 hin hout
  all_goals try simp only [hin, hout, if_false] at h1 h2
  all_goals try split_ifs at h1 h2
  all_goals try simp only [Option.some.injEq] at h1 h2
  all_goals (subst h1; subst h2; decide)

/-- Claim C23. The variants extend one another conservatively. On every token, `lexer_float.c`
returns the category that bears the name of the one `Tutorial4/lexer_tutorial_2.c` returns, unless
it returns `TOKEN_FLOAT`, and then Tutorial 4 returns `TOKEN_UNKNOWN`. Likewise Tutorial 4 returns
the category that bears the name of the one `Tutorial3/lexer_tutorial_1.c` returns, unless it
returns `TOKEN_UNSIGNED_INTEGER`, and then Tutorial 3 returns `TOKEN_UNKNOWN`. -/
theorem variants_are_conservative_extensions :
    (∀ s : List Char, ∃ (tf : LexerFloat.TokenType) (t4 : Tutorial4.TokenType),
      LexerFloat.recogniseToken s = some tf ∧ Tutorial4.recogniseToken s = some t4 ∧
      (if tf = TOKEN_FLOAT then t4 = Tutorial4.TokenType.TOKEN_UNKNOWN
        else tf = sameNameInFloat t4)) ∧
    (∀ s : List Char, ∃ (t4 : Tutorial4.TokenType) (t3 : Tutorial3.TokenType),
      Tutorial4.recogniseToken s = some t4 ∧ Tutorial3.recogniseToken s = some t3 ∧
      (if t4 = Tutorial4.TokenType.TOKEN_UNSIGNED_INTEGER then
          t3 = Tutorial3.TokenType.TOKEN_UNKNOWN
        else t4 = sameNameInTutorial4 t3)) ∧
    (LexerFloat.recogniseToken "3.14".toList = some TOKEN_FLOAT ∧
      Tutorial4.recogniseToken "3.14".toList = some Tutorial4.TokenType.TOKEN_UNKNOWN) ∧
    (Tutorial4.recogniseToken "23".toList = some Tutorial4.TokenType.TOKEN_UNSIGNED_INTEGER ∧
      Tutorial3.recogniseToken "23".toList = some Tutorial3.TokenType.TOKEN_UNKNOWN) := by
  refine ⟨fun s => ?_, fun s => ?_, ⟨by decide, by decide⟩, ⟨by decide, by decide⟩⟩
  · obtain ⟨qf, _, hqf⟩ := LexerFloat.finalState_total s
    obtain ⟨tf, htf⟩ : ∃ tf, LexerFloat.recogniseToken s = some tf := by
      rw [LexerFloat.recogniseToken_of_finalState s qf hqf]
      split_ifs <;> exact ⟨_, rfl⟩
    obtain ⟨q4, _, hq4⟩ := Tutorial4.t4_finalState_total s
    obtain ⟨t4, ht4⟩ : ∃ t4, Tutorial4.recogniseToken s = some t4 := by
      rw [Tutorial4.t4_recogniseToken_of_finalState s q4 hq4]
      split_ifs <;> exact ⟨_, rfl⟩
    exact ⟨tf, t4, htf, ht4, float_t4_compare s tf t4 htf ht4⟩
  · obtain ⟨q4, _, hq4⟩ := Tutorial4.t4_finalState_total s
    obtain ⟨t4, ht4⟩ : ∃ t4, Tutorial4.recogniseToken s = some t4 := by
      rw [Tutorial4.t4_recogniseToken_of_finalState s q4 hq4]
      split_ifs <;> exact ⟨_, rfl⟩
    obtain ⟨q3, _, hq3⟩ := Tutorial3.t3_finalState_total s
    obtain ⟨t3, ht3⟩ : ∃ t3, Tutorial3.recogniseToken s = some t3 := by
      rw [Tutorial3.t3_recogniseToken_of_finalState s q3 hq3]
      split_ifs <;> exact ⟨_, rfl⟩
    exact ⟨t4, t3, ht4, ht3, t4_t3_compare s t4 t3 ht4 ht3⟩

end ZC222
